import Mathlib

/-!
Verification development for the `ncp` repository: a small HTTP façade
(`/api/scrape`, `/api/images/[...key]`, `/api/health`) that normalizes a
domain, proxies it to an external sectionizer worker, persists returned
inline images to object storage under job-scoped keys, and serves them back.

The embedding below is a shallow model of the TypeScript source
(`src/app/api/scrape/route.ts` and `src/app/api/images/[...key]/route.ts`).
JavaScript values flowing through section descriptors are modelled by the
`JVal` inductive; JS truthiness, `String(...)` conversion and `Number(...)`
conversion are modelled by `truthy`, `jsToString` and `jsNumber` on the
fragment of inputs the routes can see (decimal integers; `NaN` outcomes are
`Option.none`).  `Buffer.from(b64, "base64")`, which never throws for a
string argument, is modelled as an uninterpreted total function carried in
the context.  Response bodies are modelled structurally rather than as
serialized JSON text.
-/

namespace NCP

/-- A JavaScript value as it can appear in a worker-returned section
descriptor: a string, a number, a boolean, an array, an opaque (truthy)
object, or `null`/`undefined` (both falsy, merged into `.null`). -/
inductive JVal : Type where
  | str : String → JVal
  | num : Int → JVal
  | bool : Bool → JVal
  | arr : List JVal → JVal
  | obj : JVal
  | null : JVal
deriving Repr

/-- JS truthiness of a `JVal` (empty string and zero are falsy; any array or
object is truthy; `null`/`undefined` are falsy). -/
def truthy : JVal → Bool
  | .str s => s ≠ ""
  | .num n => n ≠ 0
  | .bool b => b
  | .arr _ => true
  | .obj => true
  | .null => false

/-- JS `String(v)` conversion, structurally recursive on a fuel bounding
the array-nesting depth (so that it stays reducible inside the kernel);
arrays render as the comma-join of their elements. -/
def jsToStringF : Nat → JVal → String
  | _, .str s => s
  | _, .num n => toString n
  | _, .bool b => if b then "true" else "false"
  | _, .null => "null"
  | _, .obj => "[object Object]"
  | 0, .arr _ => ""
  | Nat.succ fuel, .arr xs => String.intercalate "," (xs.map (jsToStringF fuel))

/-- JS `String(v)` conversion on the modelled fragment (values nested
deeper than 1000 arrays are outside the fragment). -/
def jsToString (v : JVal) : String :=
  jsToStringF 1000 v

/-- A section descriptor (a JS object) as an association list from field
names to values; property access takes the first binding. -/
abbrev Section : Type := List (String × JVal)

/-- JS property access `s.k`: the bound value, or `undefined` (`JVal.null`). -/
def jget (s : Section) (k : String) : JVal :=
  ((s : List (String × JVal)).lookup k).getD JVal.null

/-- `Array.isArray(v) && v.length` guard from the route: the (non-empty)
element list when `v` is a non-empty array. -/
def nonemptyArr : JVal → Option (List JVal)
  | .arr (x :: xs) => some (x :: xs)
  | _ => none

/-- `cleanSectionMeta` from `route.ts`: keep only the whitelisted,
serializable metadata of an incoming section (`id`, `role`, `bbox` sliced to
at most 4 entries, numeric `confidence`, `label`). -/
def cleanSectionMeta (s : Section) : Section :=
  (if truthy (jget s "id") then [("id", JVal.str (jsToString (jget s "id")))] else [])
  ++ (if truthy (jget s "role") then [("role", JVal.str (jsToString (jget s "role")))] else [])
  ++ (match jget s "bbox" with
      | JVal.arr xs => [("bbox", JVal.arr (xs.take 4))]
      | _ => [])
  ++ (match jget s "confidence" with
      | JVal.num q => [("confidence", JVal.num q)]
      | _ => [])
  ++ (if truthy (jget s "label") then [("label", JVal.str (jsToString (jget s "label")))] else [])

/-- The suffix of `s` after its first comma, when `s` contains a comma
(JS `s.slice(s.indexOf(",") + 1)` guarded by `indexOf(",") >= 0`). -/
def afterComma (s : String) : Option String :=
  match s.data.dropWhile (fun ch => ch ≠ ',') with
  | _ :: tl => some (String.mk tl)
  | [] => none

/-- Request-independent context of the persister: the base64 decoder
(`Buffer.from(·, "base64")`, total for string inputs), URL-building
configuration, the per-request job id and the `b64=1` opt-in flag. -/
structure PCtx where
  b64decode : String → List Nat
  basePath : String
  absolute : Bool
  siteOrigin : String
  jobId : String
  includeB64 : Bool

/-- `safeDataUrlToBytes` from `route.ts`: `null` for non-strings and strings
without a comma; otherwise the base64 decoding of the part after the first
comma (`Buffer.from` never throws for a string, so the `catch` is dead). -/
def safeDataUrlToBytes (c : PCtx) (v : JVal) : Option (List Nat) :=
  match v with
  | .str s => (afterComma s).map c.b64decode
  | _ => none

/-- `safeBase64FromDataUrl` from `route.ts`: the raw base64 part (after the
first comma) of a data-URL string, `null` otherwise. -/
def safeBase64FromDataUrl : JVal → Option String
  | .str s => afterComma s
  | _ => none

/-- `String(t).padStart(2, "0")` for a tile index. -/
def pad2 (t : Nat) : String :=
  if t < 10 then "0" ++ toString t else toString t

/-- The `buildUrl` helper of the per-section worker: relative
`basePath + "/api/images/" + key` by default, prefixed with the public site
origin when `ABSOLUTE_IMAGE_URLS=1`. -/
def buildUrlC (c : PCtx) (key : String) : String :=
  let rel := c.basePath ++ "/api/images/" ++ key
  if c.absolute then c.siteOrigin ++ rel else rel

/-- One storage `put` performed by the persister. -/
structure PutOp where
  key : String
  bytes : List Nat
  contentType : String
deriving Repr

/-- `const safeId = s.id || `section_${idx}``. -/
def safeIdOf (s : Section) (idx : Nat) : String :=
  if truthy (jget s "id") then jsToString (jget s "id") else "section_" ++ toString idx

/-- The storage key of one tile. -/
def tileKey (c : PCtx) (safeId : String) (t : Nat) : String :=
  "jobs/" ++ c.jobId ++ "/" ++ safeId ++ "/tile_" ++ pad2 t ++ ".jpg"

/-- The storage key of a single section image. -/
def singleKey (c : PCtx) (safeId : String) : String :=
  "jobs/" ++ c.jobId ++ "/" ++ safeId ++ ".jpg"

/-- The tile loop of the per-section worker: walk the `images` array with
its index, silently skipping entries whose inline data does not decode, and
for each retained tile emit its URL (in order) and its storage write under a
position-padded key. -/
def tileLoop (c : PCtx) (safeId : String) : List JVal → Nat → List String × List PutOp
  | [], _ => ([], [])
  | img :: rest, t =>
    match safeDataUrlToBytes c img with
    | none => tileLoop c safeId rest (t + 1)
    | some bytes =>
      let r := tileLoop c safeId rest (t + 1)
      (buildUrlC c (tileKey c safeId t) :: r.1,
       ⟨tileKey c safeId t, bytes, "image/jpeg"⟩ :: r.2)

/-- Values of an `images_b64` array retained by
`filter((x): x is string => typeof x === "string")`. -/
def filterStrings (xs : List JVal) : List JVal :=
  xs.filterMap (fun v => match v with | JVal.str s => some (JVal.str s) | _ => none)

/-- The `images_b64` passthrough appended in the tiled branch under
`b64=1`: worker-supplied strings preferred, else re-derived from the data
URLs (and only set when non-empty). -/
def tilesB64Extra (c : PCtx) (s : Section) (imgs : List JVal) : Section :=
  if c.includeB64 then
    match nonemptyArr (jget s "images_b64") with
    | some bs => [("images_b64", JVal.arr (filterStrings bs))]
    | none =>
      if imgs.filterMap safeBase64FromDataUrl ≠ [] then
        [("images_b64", JVal.arr ((imgs.filterMap safeBase64FromDataUrl).map JVal.str))]
      else []
  else []

/-- The `image_b64` passthrough appended in the single-image branch under
`b64=1`: the worker-supplied string preferred, else re-derived. -/
def singleB64Extra (c : PCtx) (s : Section) : Section :=
  if c.includeB64 then
    match jget s "image_b64" with
    | JVal.str b => [("image_b64", JVal.str b)]
    | _ =>
      match safeBase64FromDataUrl (jget s "image") with
      | some b => [("image_b64", JVal.str b)]
      | none => []
  else []

/-- The base64 passthrough appended in the nothing-to-persist branch under
`b64=1` (worker-supplied fields only; `images_b64` needs only to be an
array here). -/
def bareB64Extra (c : PCtx) (s : Section) : Section :=
  (if c.includeB64 then
    match jget s "image_b64" with
    | JVal.str b => [("image_b64", JVal.str b)]
    | _ => []
   else [])
  ++ (if c.includeB64 then
    match jget s "images_b64" with
    | JVal.arr xs => [("images_b64", JVal.arr (filterStrings xs))]
    | _ => []
   else [])

/-- The per-section worker body passed to `pMap` in `handle`: persist a
tiled `images` array (skipping undecodable tiles), else a single `image`,
else fall through to whitelisted metadata only; under `b64=1` additionally
carry worker-supplied or re-derived base64 payloads.  Returns the rewritten
output section together with the storage writes it performed. -/
def processSection (c : PCtx) (s : Section) (idx : Nat) : Section × List PutOp :=
  match nonemptyArr (jget s "images") with
  | some imgs =>
    (cleanSectionMeta s
       ++ [("images", JVal.arr ((tileLoop c (safeIdOf s idx) imgs 0).1.map JVal.str))]
       ++ tilesB64Extra c s imgs,
     (tileLoop c (safeIdOf s idx) imgs 0).2)
  | none =>
    match safeDataUrlToBytes c (jget s "image") with
    | some bytes =>
      (cleanSectionMeta s
         ++ [("image", JVal.str (buildUrlC c (singleKey c (safeIdOf s idx))))]
         ++ singleB64Extra c s,
       [⟨singleKey c (safeIdOf s idx), bytes, "image/jpeg"⟩])
    | none =>
      (cleanSectionMeta s ++ bareB64Extra c s, [])

/-- The sequential denotation of the persister: every section of the
(already truncated) list processed in input order.  The bounded pool is
proved below to compute exactly this on every terminating schedule. -/
def persistPure (c : PCtx) (list : List Section) : List (Section × List PutOp) :=
  list.enum.map (fun p => processSection c p.2 p.1)

/-! ### The bounded-concurrency pool (`pMap`)

`pMap` spawns `min(limit, items.length)` runners over a shared cursor `i`;
each runner synchronously claims `cur = i++` and then awaits
`worker(items[cur], cur)`, writing the result to `ret[cur]`.  The event loop
interleaves runners at `await` points only, so an execution is a sequence of
atomic runner steps: an idle runner either claims the current cursor value
(when `cursor < L`) or retires; a busy runner's awaited work completes,
writing its slot.  A schedule is the list of runner indices picked by the
event loop; `runPool` is the (deterministic) execution of a schedule. -/

/-- Status of one `pMap` runner. -/
inductive WStat : Type where
  | idle : WStat
  | busy : Nat → WStat
  | done : WStat
deriving Repr, DecidableEq

/-- State of a `pMap` execution: the shared cursor, the runner statuses and
the pre-sized output buffer. -/
structure PoolState (R : Type) where
  cursor : Nat
  workers : List WStat
  out : List (Option R)
deriving Repr

/-- One atomic event-loop step of `pMap`, advancing runner `w`
(`f j` is `worker(items[j], j)`, `L` is `items.length`). -/
def poolStep (f : Nat → R) (L : Nat) (s : PoolState R) (w : Nat) : PoolState R :=
  match s.workers[w]? with
  | some WStat.idle =>
    if s.cursor < L then
      { cursor := s.cursor + 1
        workers := s.workers.set w (WStat.busy s.cursor)
        out := s.out }
    else
      { s with workers := s.workers.set w WStat.done }
  | some (WStat.busy j) =>
    { s with workers := s.workers.set w WStat.idle
             out := s.out.set j (some (f j)) }
  | _ => s

/-- Initial `pMap` state: `min(limit, items.length)` idle runners and an
output buffer of `items.length` empty slots. -/
def initPool (R : Type) (N L : Nat) : PoolState R :=
  { cursor := 0, workers := List.replicate (min N L) WStat.idle
    out := List.replicate L none }

/-- Execution of a schedule from the initial state. -/
def runPool (f : Nat → R) (L N : Nat) (choices : List Nat) : PoolState R :=
  choices.foldl (poolStep f L) (initPool R N L)

/-- `Promise.all(runners)` has resolved: every runner has retired. -/
def poolDone (s : PoolState R) : Bool :=
  s.workers.all (fun w => w = WStat.done)

/-- Number of in-flight (busy) runners. -/
def inFlight (s : PoolState R) : Nat :=
  (s.workers.filter (fun w => match w with | WStat.busy _ => true | _ => false)).length

/-- Internal invariant of a `pMap` execution. -/
def PoolInv (f : Nat → R) (L : Nat) (s : PoolState R) : Prop :=
  s.out.length = L ∧ s.cursor ≤ L ∧
  (∀ (j : Nat) (v : R), s.out[j]? = some (some v) → v = f j) ∧
  (∀ j, j < s.cursor → s.out[j]? = some (some (f j)) ∨ ∃ w : Nat, s.workers[w]? = some (WStat.busy j)) ∧
  (∀ (w j : Nat), s.workers[w]? = some (WStat.busy j) → j < s.cursor) ∧
  (∀ w : Nat, s.workers[w]? = some WStat.done → L ≤ s.cursor) ∧
  (∀ (w w' j : Nat), s.workers[w]? = some (WStat.busy j) → s.workers[w']? = some (WStat.busy j) → w = w')

theorem getElem?_replicate_inv {α : Type} {a x : α} {n w : Nat}
    (h : (List.replicate n a)[w]? = some x) : x = a := by
  rcases Nat.lt_or_ge w n with hw | hw
  · rw [List.getElem?_eq_getElem (by simpa using hw)] at h
    simpa [List.getElem_replicate] using h.symm
  · rw [List.getElem?_eq_none (by simpa using hw)] at h
    exact absurd h (by simp)

theorem poolInv_init (f : Nat → R) (L N : Nat) : PoolInv f L (initPool R N L) := by
  refine ⟨List.length_replicate _ _, Nat.zero_le _, ?_, ?_, ?_, ?_, ?_⟩
  · intro j v h
    exact absurd (getElem?_replicate_inv h) (by simp)
  · intro j hj
    exact absurd hj (by simp [initPool])
  · intro w j h
    exact absurd (getElem?_replicate_inv h) (by simp)
  · intro w h
    exact absurd (getElem?_replicate_inv h) (by simp)
  · intro w w' j h _
    exact absurd (getElem?_replicate_inv h) (by simp)

theorem lt_length_of_getElem?_eq_some {α : Type} {l : List α} {w : Nat} {x : α}
    (h : l[w]? = some x) : w < l.length := by
  by_contra hcon
  rw [List.getElem?_eq_none (Nat.le_of_not_lt hcon)] at h
  exact absurd h (by simp)

theorem poolInv_step (f : Nat → R) (L : Nat) (s : PoolState R) (w : Nat)
    (h : PoolInv f L s) : PoolInv f L (poolStep f L s w) := by
  obtain ⟨hlen, hcur, hval, hcov, hbusylt, hdone, huniq⟩ := h
  unfold poolStep
  split
  next hw =>
    -- idle runner
    have hwlt : w < s.workers.length := lt_length_of_getElem?_eq_some hw
    split
    next hlt =>
      -- claims the cursor
      refine ⟨hlen, hlt, hval, ?_, ?_, ?_, ?_⟩
      · intro j hj
        rcases Nat.lt_or_eq_of_le (Nat.le_of_lt_succ hj) with hj' | hj'
        · rcases hcov j hj' with hl | ⟨w', hw'⟩
          · exact Or.inl hl
          · refine Or.inr ⟨w', ?_⟩
            have hne : w ≠ w' := by
              intro he; rw [he] at hw; rw [hw] at hw'; exact absurd hw' (by simp)
            simpa [List.getElem?_set_ne hne] using hw'
        · subst hj'
          exact Or.inr ⟨w, by simp [List.getElem?_set_eq_of_lt _ hwlt]⟩
      · intro w' j hw'
        by_cases he : w = w'
        · subst he
          rw [List.getElem?_set_eq_of_lt _ hwlt] at hw'
          cases hw'
          exact Nat.lt_succ_self _
        · rw [List.getElem?_set_ne he] at hw'
          exact Nat.lt_succ_of_lt (hbusylt w' j hw')
      · intro w' hw'
        by_cases he : w = w'
        · subst he
          rw [List.getElem?_set_eq_of_lt _ hwlt] at hw'
          exact absurd hw' (by simp)
        · rw [List.getElem?_set_ne he] at hw'
          exact Nat.le_succ_of_le (hdone w' hw')
      · intro w1 w2 j hw1 hw2
        by_cases he1 : w = w1 <;> by_cases he2 : w = w2
        · rw [← he1, ← he2]
        · subst he1
          rw [List.getElem?_set_eq_of_lt _ hwlt] at hw1
          rw [List.getElem?_set_ne he2] at hw2
          cases hw1
          exact absurd (hbusylt w2 _ hw2) (Nat.lt_irrefl _)
        · subst he2
          rw [List.getElem?_set_eq_of_lt _ hwlt] at hw2
          rw [List.getElem?_set_ne he1] at hw1
          cases hw2
          exact absurd (hbusylt w1 _ hw1) (Nat.lt_irrefl _)
        · rw [List.getElem?_set_ne he1] at hw1
          rw [List.getElem?_set_ne he2] at hw2
          exact huniq w1 w2 j hw1 hw2
    next hlt =>
      -- retires
      refine ⟨hlen, hcur, hval, ?_, ?_, ?_, ?_⟩
      · intro j hj
        rcases hcov j hj with hl | ⟨w', hw'⟩
        · exact Or.inl hl
        · refine Or.inr ⟨w', ?_⟩
          have hne : w ≠ w' := by
            intro he; rw [he] at hw; rw [hw] at hw'; exact absurd hw' (by simp)
          simpa [List.getElem?_set_ne hne] using hw'
      · intro w' j hw'
        by_cases he : w = w'
        · subst he
          rw [List.getElem?_set_eq_of_lt _ hwlt] at hw'
          exact absurd hw' (by simp)
        · rw [List.getElem?_set_ne he] at hw'
          exact hbusylt w' j hw'
      · intro w' hw'
        exact Nat.le_of_not_lt hlt
      · intro w1 w2 j hw1 hw2
        by_cases he1 : w = w1
        · subst he1
          rw [List.getElem?_set_eq_of_lt _ hwlt] at hw1
          exact absurd hw1 (by simp)
        · by_cases he2 : w = w2
          · subst he2
            rw [List.getElem?_set_eq_of_lt _ hwlt] at hw2
            exact absurd hw2 (by simp)
          · rw [List.getElem?_set_ne he1] at hw1
            rw [List.getElem?_set_ne he2] at hw2
            exact huniq w1 w2 j hw1 hw2
  next j0 hw =>
    -- busy runner completes, writes its slot
    have hwlt : w < s.workers.length := lt_length_of_getElem?_eq_some hw
    have hj0 : j0 < s.cursor := hbusylt w j0 hw
    have hj0L : j0 < s.out.length := by rw [hlen]; exact Nat.lt_of_lt_of_le hj0 hcur
    refine ⟨by simp [hlen], hcur, ?_, ?_, ?_, ?_, ?_⟩
    · intro j v hj
      by_cases he : j0 = j
      · subst he
        rw [List.getElem?_set_eq_of_lt _ hj0L] at hj
        cases hj; rfl
      · rw [List.getElem?_set_ne he] at hj
        exact hval j v hj
    · intro j hj
      by_cases he : j0 = j
      · subst he
        exact Or.inl (by rw [List.getElem?_set_eq_of_lt _ hj0L])
      · rcases hcov j hj with hl | ⟨w', hw'⟩
        · exact Or.inl (by rw [List.getElem?_set_ne he]; exact hl)
        · have hne : w ≠ w' := by
            intro hww; rw [← hww] at hw'
            rw [hw'] at hw
            cases hw
            exact he rfl
          exact Or.inr ⟨w', by rw [List.getElem?_set_ne hne]; exact hw'⟩
    · intro w' j hw'
      by_cases he : w = w'
      · subst he
        rw [List.getElem?_set_eq_of_lt _ hwlt] at hw'
        exact absurd hw' (by simp)
      · rw [List.getElem?_set_ne he] at hw'
        exact hbusylt w' j hw'
    · intro w' hw'
      by_cases he : w = w'
      · subst he
        rw [List.getElem?_set_eq_of_lt _ hwlt] at hw'
        exact absurd hw' (by simp)
      · rw [List.getElem?_set_ne he] at hw'
        exact hdone w' hw'
    · intro w1 w2 j hw1 hw2
      by_cases he1 : w = w1
      · subst he1
        rw [List.getElem?_set_eq_of_lt _ hwlt] at hw1
        exact absurd hw1 (by simp)
      · by_cases he2 : w = w2
        · subst he2
          rw [List.getElem?_set_eq_of_lt _ hwlt] at hw2
          exact absurd hw2 (by simp)
        · rw [List.getElem?_set_ne he1] at hw1
          rw [List.getElem?_set_ne he2] at hw2
          exact huniq w1 w2 j hw1 hw2
  next =>
    exact ⟨hlen, hcur, hval, hcov, hbusylt, hdone, huniq⟩

theorem poolInv_foldl (f : Nat → R) (L : Nat) (choices : List Nat) :
    ∀ s : PoolState R, PoolInv f L s → PoolInv f L (choices.foldl (poolStep f L) s) := by
  induction choices with
  | nil => intro s hs; exact hs
  | cons c cs ih =>
    intro s hs
    exact ih _ (poolInv_step f L s c hs)

theorem poolInv_run (f : Nat → R) (L N : Nat) (choices : List Nat) :
    PoolInv f L (runPool f L N choices) :=
  poolInv_foldl f L choices _ (poolInv_init f L N)

theorem poolStep_workers_length (f : Nat → R) (L : Nat) (s : PoolState R) (w : Nat) :
    ((poolStep f L s w).workers).length = s.workers.length := by
  unfold poolStep
  split
  · split <;> simp
  · simp
  · rfl

theorem runPool_workers_length (f : Nat → R) (L N : Nat) (choices : List Nat) :
    (runPool f L N choices).workers.length = min N L := by
  unfold runPool
  suffices h : ∀ s : PoolState R,
      ((choices.foldl (poolStep f L) s).workers).length = s.workers.length by
    rw [h]; simp [initPool]
  induction choices with
  | nil => intro s; rfl
  | cons c cs ih =>
    intro s
    rw [List.foldl_cons, ih, poolStep_workers_length]

/-- On every schedule after which `Promise.all` has resolved, the pool has
filled every slot of the output buffer with `f` of its own index. -/
theorem runPool_done_out (f : Nat → R) (L N : Nat) (choices : List Nat)
    (hN : 1 ≤ N) (hdone : poolDone (runPool f L N choices) = true) :
    (runPool f L N choices).out.length = L ∧
    ∀ j, j < L → (runPool f L N choices).out[j]? = some (some (f j)) := by
  obtain ⟨hlen, hcur, hval, hcov, hbusylt, hdoneInv, huniq⟩ := poolInv_run f L N choices
  refine ⟨hlen, ?_⟩
  intro j hj
  rcases Nat.eq_zero_or_pos L with hL | hL
  · omega
  have hmin : 1 ≤ min N L := le_min hN hL
  have hwl : (runPool f L N choices).workers.length = min N L :=
    runPool_workers_length f L N choices
  -- some runner exists and is done, hence the cursor reached L
  have h0lt : 0 < (runPool f L N choices).workers.length := by omega
  have hw0 : (runPool f L N choices).workers[0]? =
      some ((runPool f L N choices).workers.get ⟨0, h0lt⟩) := by
    rw [List.getElem?_eq_getElem h0lt]
    rfl
  have hmem : (runPool f L N choices).workers.get ⟨0, h0lt⟩ ∈
      (runPool f L N choices).workers := List.getElem?_mem hw0
  have hall := List.all_eq_true.mp hdone _ hmem
  have h0done : (runPool f L N choices).workers.get ⟨0, h0lt⟩ = WStat.done := by
    simpa using hall
  have hLc : L ≤ (runPool f L N choices).cursor := hdoneInv 0 (by rw [hw0, h0done])
  have hcL : (runPool f L N choices).cursor = L := Nat.le_antisymm hcur hLc
  rcases hcov j (by omega) with hl | ⟨w', hw'⟩
  · exact hl
  · have hmem' : WStat.busy j ∈ (runPool f L N choices).workers := List.getElem?_mem hw'
    have := List.all_eq_true.mp hdone _ hmem'
    exact absurd this (by simp)

/-! ### Environment configuration, JS numbers, and the section-cap policy -/

/-- A JS number restricted to the integral fragment the route computes with;
`none` is `NaN`. -/
abbrev JsNum : Type := Option Int

/-- Model of JS `Number(s)` for a string: leading/trailing whitespace is
trimmed, the empty string is `0`, an optionally `-`-signed run of decimal
digits is its value, and anything else is `NaN` (`none`).  (The routes only
ever feed `Number` query-parameter and environment strings; float/hex forms
are outside the modelled fragment.) -/
def isJsSpace (c : Char) : Bool :=
  c = ' ' || c = '\t' || c = '\n' || c = '\r'

/-- Whitespace trimming (the fragment of `String.trim` / JS `Number`
coercion whitespace handling relevant here). -/
def trimStr (s : String) : String :=
  String.mk (((s.data.dropWhile isJsSpace).reverse.dropWhile isJsSpace).reverse)

def jsNumber (s : String) : JsNum :=
  let t := trimStr s
  if t = "" then some 0
  else
    let (sign, ds) : Int × List Char :=
      match t.data with
      | '-' :: rest => (-1, rest)
      | l => (1, l)
    if ds ≠ [] ∧ ds.all (fun c => 48 ≤ c.toNat ∧ c.toNat ≤ 57) then
      some (sign * (ds.foldl (fun acc c => acc * 10 + (c.toNat - 48 : Int)) 0))
    else none

/-- JS truthiness of a number (`0` and `NaN` are falsy). -/
def jsTruthy (n : JsNum) : Bool :=
  match n with
  | some v => v ≠ 0
  | none => false

/-- `String(n)` for a JS number of the modelled fragment. -/
def jsNumStr (n : JsNum) : String :=
  match n with
  | some v => toString v
  | none => "NaN"

/-- `clamp` from `route.ts`: `Math.max(lo, Math.min(hi, n))`, with `NaN`
propagating through `Math.min`/`Math.max`. -/
def clampJ (n : JsNum) (lo : Int) (hi : JsNum) : JsNum :=
  match n, hi with
  | some x, some h => some (max lo (min h x))
  | _, _ => none

/-- Environment-level configuration of the scrape route, as read from
`process.env` at module load.  Values are the raw environment strings
(`none` = variable unset); `envKeys` is the full list of environment
variable names (for the `ping=1` diagnostic payload). -/
structure Env where
  b64decode : String → List Nat
  cfUrlSet : Bool
  cfTokenSet : Bool
  allowedOriginsRaw : String
  envWorkerMax : Option String
  envMaxSections : Option String
  basePath : Option String
  absoluteImageUrls : Option String
  publicSiteOrigin : Option String
  envKeys : List String

/-- `DEFAULT_WORKER_MAX = Number(process.env.WORKER_MAX || 6)`. -/
def defaultWorkerMax (e : Env) : JsNum :=
  match e.envWorkerMax with
  | some s => if s ≠ "" then jsNumber s else some 6
  | none => some 6

/-- `DEFAULT_MAX_SECTIONS = Number(process.env.MAX_SECTIONS || DEFAULT_WORKER_MAX)`. -/
def defaultMaxSections (e : Env) : JsNum :=
  match e.envMaxSections with
  | some s => if s ≠ "" then jsNumber s else defaultWorkerMax e
  | none => defaultWorkerMax e

/-- Query parameters as an ordered multiset of pairs;
`searchParams.get` returns the first occurrence. -/
abbrev Params : Type := List (String × String)

def lookupParam (q : Params) (k : String) : Option String :=
  (q : List (String × String)).lookup k

/-- `workerMax = clamp(qMax || DEFAULT_WORKER_MAX, 1, 12)` where
`qMax = Number(u.searchParams.get("max") || "")`. -/
def workerMaxOf (e : Env) (q : Params) : JsNum :=
  clampJ
    (if jsTruthy (jsNumber ((lookupParam q "max").getD ""))
     then jsNumber ((lookupParam q "max").getD "")
     else defaultWorkerMax e)
    1 (some 12)

/-- `maxSections = clamp(Number(process.env.MAX_SECTIONS || DEFAULT_MAX_SECTIONS
|| workerMax), 1, workerMax)` (string truthiness for the env var, number
truthiness for the defaults). -/
def maxSectionsOf (e : Env) (q : Params) : JsNum :=
  clampJ
    (match e.envMaxSections with
     | some s =>
       if s ≠ "" then jsNumber s
       else (if jsTruthy (defaultMaxSections e) then defaultMaxSections e
             else workerMaxOf e q)
     | none =>
       if jsTruthy (defaultMaxSections e) then defaultMaxSections e
       else workerMaxOf e q)
    1 (workerMaxOf e q)

/-- `Array.prototype.slice(0, n)` count for a possibly-`NaN` bound
(`NaN` slices to the empty list; the bound is never negative here since it
was clamped to at least 1). -/
def jsToNat (n : JsNum) : Nat :=
  match n with
  | some v => v.toNat
  | none => 0

/-- `URLSearchParams.set`: replace the first binding of the key (dropping
later duplicates) or append a new one. -/
def setParam : Params → String → String → Params
  | [], k, v => [(k, v)]
  | p :: rest, k, v =>
    if p.1 = k then (k, v) :: rest.filter (fun x => x.1 ≠ k)
    else p :: setParam rest k v

/-- The worker-request query built by `handle`: `url=<origin>`, every
caller query parameter except `domain` forwarded verbatim (in order, later
duplicates overwriting earlier ones), and `max=<workerMax>` appended when
the caller did not send a `max`.  (`CF_WORKER_URL` is modelled as a bare
base URL without query parameters, matching its documented form.) -/
def workerParamsOf (e : Env) (origin : String) (q : Params) : Params :=
  match lookupParam
      (q.foldl (fun acc p => if p.1 = "domain" then acc else setParam acc p.1 p.2)
        (setParam [] "url" origin)) "max" with
  | some v =>
    if v ≠ "" then
      q.foldl (fun acc p => if p.1 = "domain" then acc else setParam acc p.1 p.2)
        (setParam [] "url" origin)
    else
      setParam
        (q.foldl (fun acc p => if p.1 = "domain" then acc else setParam acc p.1 p.2)
          (setParam [] "url" origin)) "max" (jsNumStr (workerMaxOf e q))
  | none =>
    setParam
      (q.foldl (fun acc p => if p.1 = "domain" then acc else setParam acc p.1 p.2)
        (setParam [] "url" origin)) "max" (jsNumStr (workerMaxOf e q))

/-- The value of the last occurrence of key `k` in `q` (what a sequence of
`URLSearchParams.set` calls over `q` leaves behind). -/
def lastParam (q : Params) (k : String) : Option String :=
  match q with
  | [] => none
  | p :: rest =>
    match lastParam rest k with
    | some w => some w
    | none => if p.1 = k then some p.2 else none

theorem lookup_setParam_self (ps : Params) (k v : String) :
    lookupParam (setParam ps k v) k = some v := by
  induction ps with
  | nil => simp [setParam, lookupParam]
  | cons p rest ih =>
    by_cases h : p.1 = k
    · simp [setParam, h, lookupParam]
    · simp only [setParam, if_neg h]
      simpa [lookupParam, List.lookup, show (k == p.1) = false by
        simpa using fun he => h he.symm] using ih

theorem lookup_filter_ne (rs : Params) (k k' : String) (h : k ≠ k') :
    List.lookup k (rs.filter (fun x => x.1 ≠ k')) = List.lookup k rs := by
  induction rs with
  | nil => simp
  | cons r rest ih =>
    by_cases hr : r.1 = k'
    · have h1 : (decide (r.1 ≠ k')) = false := by simpa using hr
      have h2 : (k == r.1) = false := by
        simpa using fun he => h (by rw [he, hr])
      simp only [List.filter, h1, List.lookup, h2]
      exact ih
    · have h1 : (decide (r.1 ≠ k')) = true := by simpa using hr
      simp only [List.filter, h1, List.lookup]
      by_cases hkr : (k == r.1) = true
      · simp [hkr]
      · simp only [eq_false_of_ne_true hkr]
        exact ih

theorem lookup_setParam_ne (ps : Params) (k k' v : String) (h : k' ≠ k) :
    lookupParam (setParam ps k' v) k = lookupParam ps k := by
  induction ps with
  | nil =>
    simp [setParam, lookupParam, List.lookup,
      show (k == k') = false by simpa using fun he => h he.symm]
  | cons p rest ih =>
    by_cases hp : p.1 = k'
    · have hk' : (k == k') = false := by simpa using fun he => h he.symm
      have hkp : (k == p.1) = false := by
        simpa using fun he => h (hp.symm.trans he.symm)
      simp only [setParam, if_pos hp, lookupParam, List.lookup, hk', hkp]
      exact lookup_filter_ne rest k k' (fun he => h he.symm)
    · simp only [setParam, if_neg hp]
      by_cases hkp : (k == p.1) = true
      · simp [lookupParam, List.lookup, hkp]
      · simpa [lookupParam, List.lookup, eq_false_of_ne_true hkp] using ih

theorem lookup_append_of_none (l1 l2 : Params) (k : String)
    (h : List.lookup k l1 = none) :
    List.lookup k (l1 ++ l2) = List.lookup k l2 := by
  induction l1 with
  | nil => simp
  | cons p rest ih =>
    by_cases hk : (k == p.1) = true
    · simp [List.lookup, hk] at h
    · simp only [List.lookup, eq_false_of_ne_true hk] at h
      simpa [List.lookup, eq_false_of_ne_true hk] using ih h

/-- The forwarding fold of `handle` leaves, for any non-`domain` key, the
value of the caller's last occurrence of that key (or what the accumulator
already had). -/
theorem lookup_forward_fold (k : String) (hk : k ≠ "domain") (q : Params) :
    ∀ acc : Params,
      lookupParam (q.foldl (fun acc p => if p.1 = "domain" then acc else setParam acc p.1 p.2) acc) k
      = match lastParam q k with
        | some v => some v
        | none => lookupParam acc k := by
  induction q with
  | nil => intro acc; rfl
  | cons p rest ih =>
    intro acc
    by_cases hd : p.1 = "domain"
    · have hpk : (p.1 = k) = False := by
        simp only [eq_iff_iff, iff_false]
        intro he; exact hk (he ▸ hd)
      simp only [List.foldl_cons, if_pos hd, lastParam, hpk, if_false]
      rw [ih acc]
      rcases hlr : lastParam rest k with _ | w <;> simp [hlr]
    · simp only [List.foldl_cons, if_neg hd, lastParam]
      rw [ih (setParam acc p.1 p.2)]
      rcases hlp : lastParam rest k with _ | w
      · by_cases hpk : p.1 = k
        · subst hpk
          simp [lookup_setParam_self]
        · simp [hpk, lookup_setParam_ne acc k p.1 p.2 hpk]
      · simp

/-- The `max` actually sent to the worker: the caller's own (last) `max`
query value verbatim when present and non-empty, otherwise the clamped
`workerMax`. -/
theorem workerParams_max (e : Env) (origin : String) (q : Params) :
    lookupParam (workerParamsOf e origin q) "max"
    = match lastParam q "max" with
      | some v => if v ≠ "" then some v else some (jsNumStr (workerMaxOf e q))
      | none => some (jsNumStr (workerMaxOf e q)) := by
  unfold workerParamsOf
  have hbase : lookupParam (setParam [] "url" origin) "max" = none := by
    simp [setParam, lookupParam, List.lookup]
  have hfold := lookup_forward_fold "max" (by simp) q (setParam [] "url" origin)
  rw [hbase] at hfold
  split
  next v heq =>
    rw [heq] at hfold
    rcases hlp : lastParam q "max" with _ | w
    · rw [hlp] at hfold
      exact absurd hfold (by simp)
    · rw [hlp] at hfold
      have hwv : w = v := by simpa using hfold.symm
      subst hwv
      simp only [hlp]
      split
      next hv => exact heq
      next hv => exact lookup_setParam_self _ _ _
  next heq =>
    rw [heq] at hfold
    rcases hlp : lastParam q "max" with _ | w
    · simp only [hlp]
      exact lookup_setParam_self _ _ _
    · rw [hlp] at hfold
      exact absurd hfold (by simp)

/-! ### `new URL(...)` and the Origin Normalizer `norm`

A model of the WHATWG URL parser on the fragment the routes exercise:
scheme recognition, special-scheme (`http`/`https`) authority parsing with
userinfo stripping, host validation against the forbidden host code points,
numeric ports with default-port elision, and `u.origin`/`u.protocol`.
Deliberately outside the fragment (unreachable from `norm`'s inputs in the
theorems below): IPv6 host brackets, percent-encoded hosts, IDNA mapping
beyond ASCII lowercasing, tab/newline stripping, floats in ports. -/

def isAlphaC (c : Char) : Bool :=
  (97 ≤ c.toNat && c.toNat ≤ 122) || (65 ≤ c.toNat && c.toNat ≤ 90)

def isDigitC (c : Char) : Bool :=
  48 ≤ c.toNat && c.toNat ≤ 57

def isSchemeC (c : Char) : Bool :=
  isAlphaC c || isDigitC c || c = '+' || c = '-' || c = '.'

/-- Split `scheme:rest`, requiring a leading alphabetic character and scheme
characters up to the first `:`; `none` when the string has no scheme. -/
def splitScheme (l : List Char) : Option (List Char × List Char) :=
  match l with
  | [] => none
  | c :: rest =>
    if isAlphaC c then go [c] rest else none
where
  go (acc : List Char) : List Char → Option (List Char × List Char)
    | [] => none
    | c :: rest =>
      if c = ':' then some (acc.reverse, rest)
      else if isSchemeC c then go (c :: acc) rest
      else none

/-- A forbidden host code point (the subset relevant to ASCII hosts). -/
def badHostChar (c : Char) : Bool :=
  c = ' ' || c = '#' || c = '/' || c = ':' || c = '?' || c = '@' ||
  c = '[' || c = '\\' || c = ']' || c = '^' || c = '|' || c = '<' || c = '>'

structure UrlM where
  scheme : String
  host : String
  port : Option Nat
  rest : String
deriving Repr, DecidableEq

/-- Split a character list at the first occurrence of `c`. -/
def splitFirst (l : List Char) (c : Char) : Option (List Char × List Char) :=
  match l with
  | [] => none
  | x :: rest =>
    if x = c then some ([], rest)
    else (splitFirst rest c).map (fun p => (x :: p.1, p.2))

/-- The part of an authority after its last `@` (userinfo is dropped). -/
def afterLastAt (l : List Char) : List Char :=
  ((l.reverse.takeWhile (fun c => c ≠ '@'))).reverse

def digitsVal (l : List Char) : Nat :=
  l.foldl (fun acc c => acc * 10 + (c.toNat - 48)) 0

/-- Elide the scheme's default port. -/
def canonPort (scheme : String) (p : Option Nat) : Option Nat :=
  match p with
  | some n =>
    if (scheme = "http" && n = 80) || (scheme = "https" && n = 443) then none
    else some n
  | none => none

/-- Validate and assemble a special-scheme URL record from its pieces. -/
def mkHost (scheme : String) (hostChars : List Char) (port : Option Nat)
    (path : List Char) : Option UrlM :=
  if hostChars.map Char.toLower = [] then none
  else if (hostChars.map Char.toLower).any badHostChar then none
  else some ⟨scheme, String.mk (hostChars.map Char.toLower), canonPort scheme port,
    String.mk path⟩

/-- Host/port parsing of an authority (userinfo already dropped): split at
the first colon and require a (possibly empty) all-digits port. -/
def parseAuthority (scheme : String) (hp : List Char) (path : List Char) : Option UrlM :=
  match splitFirst hp ':' with
  | none => mkHost scheme hp none path
  | some (hst, prt) =>
    if prt.all isDigitC then
      if prt = [] then mkHost scheme hst none path
      else mkHost scheme hst (some (digitsVal prt)) path
    else none

/-- The authority of a special-scheme remainder: skip the slashes after the
colon, then read up to `/`, `?` or `#`. -/
def authorityOf (rest : List Char) : List Char :=
  (rest.dropWhile (fun c => c = '/')).takeWhile (fun c => c ≠ '/' && c ≠ '?' && c ≠ '#')

/-- What follows the authority (path/query/fragment, kept opaque). -/
def afterAuthority (rest : List Char) : List Char :=
  (rest.dropWhile (fun c => c = '/')).drop (authorityOf rest).length

/-- Authority parsing for `http`/`https`: skip the slashes after the colon,
read the authority up to `/`, `?` or `#`, drop userinfo, split host and
port at the first colon, and require a (possibly empty) all-digits port. -/
def parseSpecialAfterScheme (scheme : String) (rest : List Char) : Option UrlM :=
  parseAuthority scheme (afterLastAt (authorityOf rest)) (afterAuthority rest)

/-- Scheme dispatch: special schemes (`http`/`https`) go through authority
parsing; other schemes parse opaquely (their origin is never consumed by
the routes, which reject non-http(s) protocols first). -/
def parseWithScheme (schemeL : String) (rest : List Char) : Option UrlM :=
  if schemeL = "http" || schemeL = "https" then
    parseSpecialAfterScheme schemeL rest
  else
    some ⟨schemeL, "", none, String.mk rest⟩

/-- `new URL(s)` (without a base): `none` models a thrown `TypeError`. -/
def parseURL (s : String) : Option UrlM :=
  match splitScheme s.data with
  | none => none
  | some (sch, rest) => parseWithScheme (String.mk (sch.map Char.toLower)) rest

/-- `u.origin` for a special-scheme URL record. -/
def urlOrigin (u : UrlM) : String :=
  u.scheme ++ "://" ++ u.host ++
    (match u.port with
     | some p => ":" ++ toString p
     | none => "")

/-- `input.startsWith("http")` (computed on the character list so that it
evaluates inside the kernel). -/
def startsWithHttp (input : String) : Bool :=
  ("http".data).isPrefixOf input.data

/-- The conditional prefixing of `norm`:
`input.startsWith("http") ? input : "https://" + input` — a literal prefix
test, not a scheme test. -/
def prefixed (input : String) : String :=
  if startsWithHttp input then input else "https://" ++ input

/-- `norm` from `route.ts`: parse the (conditionally prefixed) string,
require protocol `http:` or `https:` (`/^https?:$/`), and return
`u.origin`.  `Except.error` models the thrown exceptions (`TypeError` from
`new URL`, `Error("bad protocol")` from the explicit check). -/
def norm (input : String) : Except String String :=
  match parseURL (prefixed input) with
  | none => Except.error "Invalid URL"
  | some u =>
    if u.scheme = "http" || u.scheme = "https" then Except.ok (urlOrigin u)
    else Except.error "bad protocol"

/-! ### CORS gate, requests, responses, and the route handlers -/

/-- `split(",")` on the character list. -/
def splitComma : List Char → List (List Char)
  | [] => [[]]
  | c :: rest =>
    match splitComma rest with
    | [] => [[]]
    | g :: gs => if c = ',' then [] :: g :: gs else (c :: g) :: gs

/-- `ORIGINS`: the comma-separated allow-list, trimmed, empty entries
dropped. -/
def originsOf (e : Env) : List String :=
  ((splitComma e.allowedOriginsRaw.data).map (fun l => trimStr (String.mk l))).filter
    (fun s => s ≠ "")

/-- `const ok = o && ORIGINS.includes(o)` of the `cors` helper (and exactly
the POST gate's admission condition). -/
def corsOk (e : Env) (h : Option String) : Bool :=
  match h with
  | some s => s ≠ "" && (originsOf e).contains s
  | none => false

/-- The `cors(o)` header set. -/
def cors (e : Env) (h : Option String) : List (String × String) :=
  [("access-control-allow-origin", if corsOk e h then h.getD "" else "null"),
   ("access-control-allow-methods", "POST, GET, OPTIONS"),
   ("access-control-allow-headers", "content-type"),
   ("access-control-max-age", "86400"),
   ("vary", "Origin")]

def jsonHeaders (e : Env) (h : Option String) : List (String × String) :=
  ("content-type", "application/json") :: cors e h

/-- A response body, modelled structurally (the route serializes these to
JSON / plain text). -/
inductive RBody : Type where
  | text : String → RBody
  | errJson : String → RBody
  | pingDiag : String → Bool → Bool → List String → RBody
  | success : String → String → List Section → JVal → RBody
  | bytes : List Nat → RBody

structure HttpResponse where
  status : Nat
  headers : List (String × String)
  body : RBody

/-- Result of invoking a route function: a `Response`, or an exception that
escaped it (uncaught by the route's own code). -/
inductive Outcome : Type where
  | resp : HttpResponse → Outcome
  | thrown : String → Outcome

/-- An incoming request: `Origin` header, query parameters, the parsed
POST body's `domain` (`none` = absent or JSON parse failure, which the
route merges), and the header/URL pieces `publicOrigin` reads. -/
structure Req where
  originHdr : Option String
  query : Params
  domainBody : Option String
  xfProto : Option String
  xfHost : Option String
  urlHost : String

/-- `h.get(...) || default` for a possibly-empty header value. -/
def headerOr (o : Option String) (d : String) : String :=
  match o with
  | some s => if s ≠ "" then s else d
  | none => d

/-- `publicOrigin(req)`: the `PUBLIC_SITE_ORIGIN` override with trailing
slashes stripped, else `x-forwarded-proto`/`x-forwarded-host` (falling back
to `https` and the request URL's host). -/
def publicOrigin (e : Env) (r : Req) : String :=
  match e.publicSiteOrigin with
  | some f => String.mk ((f.data.reverse.dropWhile (fun c => c = '/')).reverse)
  | none => headerOr r.xfProto "https" ++ "://" ++ headerOr r.xfHost r.urlHost

/-- The worker's parsed JSON payload: `sections` is `some` exactly when the
field is an array (`Array.isArray` guard), `meta` is an arbitrary value. -/
structure Payload where
  sections : Option (List Section)
  meta : JVal

/-- The upstream worker's HTTP response: status, raw text body, and the
parsed JSON payload (`none` models `wres.json()` throwing, with
`jsonErrMsg` the exception's message). -/
structure Upstream where
  status : Nat
  bodyText : String
  jsonErrMsg : String
  payload : Option Payload

/-- `wres.ok`: status in the 2xx range. -/
def upstreamOk (u : Upstream) : Bool :=
  200 ≤ u.status && u.status ≤ 299

/-- Result of a scrape route invocation: the outcome plus the observable
effects (whether the worker was fetched and with which query, and the
storage writes performed). -/
structure GRes where
  outcome : Outcome
  workerCalled : Bool
  workerParams : Option Params
  puts : List PutOp

/-- The CORS rejection response of `POST`. -/
def corsRejectResp (e : Env) (h : Option String) : HttpResponse :=
  ⟨403, jsonHeaders e h, RBody.errJson "Origin not allowed"⟩

/-- The persister context `handle` builds for the per-section workers. -/
def pctxOf (e : Env) (req : Req) (jobId : String) : PCtx :=
  { b64decode := e.b64decode
    basePath := e.basePath.getD ""
    absolute := e.absoluteImageUrls == some "1"
    siteOrigin := publicOrigin e req
    jobId := jobId
    includeB64 := lookupParam req.query "b64" == some "1" }

/-- The truncated section list `handle` persists. -/
def truncatedSections (e : Env) (req : Req) (pl : Payload) : List Section :=
  (pl.sections.getD []).take (jsToNat (maxSectionsOf e req.query))

/-- `handle` from `route.ts` (everything inside its `try` is modelled; the
only throw sources inside it are modelled explicitly, so it always returns
a `Response`). -/
def handle (e : Env) (up : Upstream) (hasBucket : Bool) (jobId : String)
    (req : Req) (origin : String) (h : Option String) : GRes :=
  if lookupParam req.query "raw" = some "1" then
    { outcome := Outcome.resp ⟨up.status, jsonHeaders e h, RBody.text up.bodyText⟩
      workerCalled := true, workerParams := some (workerParamsOf e origin req.query)
      puts := [] }
  else if upstreamOk up = false then
    { outcome := Outcome.resp ⟨up.status, jsonHeaders e h, RBody.text up.bodyText⟩
      workerCalled := true, workerParams := some (workerParamsOf e origin req.query)
      puts := [] }
  else
    match up.payload with
    | none =>
      { outcome := Outcome.resp ⟨500, jsonHeaders e h, RBody.errJson up.jsonErrMsg⟩
        workerCalled := true, workerParams := some (workerParamsOf e origin req.query)
        puts := [] }
    | some pl =>
      if hasBucket = false then
        { outcome := Outcome.resp
            ⟨500, jsonHeaders e h, RBody.errJson "Storage binding CLOUD_FILES is missing"⟩
          workerCalled := true, workerParams := some (workerParamsOf e origin req.query)
          puts := [] }
      else
        { outcome := Outcome.resp
            ⟨200, jsonHeaders e h,
              RBody.success jobId origin
                ((persistPure (pctxOf e req jobId) (truncatedSections e req pl)).map Prod.fst)
                (if truthy pl.meta then pl.meta else JVal.obj)⟩
          workerCalled := true, workerParams := some (workerParamsOf e origin req.query)
          puts := ((persistPure (pctxOf e req jobId) (truncatedSections e req pl)).map
            Prod.snd).flatten }

/-- `GET` of the scrape route: the `ping=1` diagnostic short-circuit, then
the missing-domain check (`!q`, so an empty value also counts as missing),
then `handle(norm(q), ...)` — with `norm` evaluated *outside* `handle`'s
`try`, so its exceptions escape `GET`. -/
def scrapeGET (e : Env) (up : Upstream) (hasBucket : Bool) (jobId : String)
    (req : Req) : GRes :=
  let h := req.originHdr
  if lookupParam req.query "ping" = some "1" then
    { outcome := Outcome.resp
        ⟨200, jsonHeaders e h,
          RBody.pingDiag (e.basePath.getD "") e.cfUrlSet e.cfTokenSet e.envKeys⟩
      workerCalled := false, workerParams := none, puts := [] }
  else
    match lookupParam req.query "domain" with
    | none =>
      { outcome := Outcome.resp ⟨400, cors e h, RBody.text "Missing domain"⟩
        workerCalled := false, workerParams := none, puts := [] }
    | some q =>
      if q = "" then
        { outcome := Outcome.resp ⟨400, cors e h, RBody.text "Missing domain"⟩
          workerCalled := false, workerParams := none, puts := [] }
      else
        match norm q with
        | Except.error m =>
          { outcome := Outcome.thrown m
            workerCalled := false, workerParams := none, puts := [] }
        | Except.ok o => handle e up hasBucket jobId req o h

/-- `POST` of the scrape route: the Origin gate, then the missing-domain
check on the parsed JSON body, then `handle(norm(domain), ...)` — with
`norm` again outside any `try`. -/
def scrapePOST (e : Env) (up : Upstream) (hasBucket : Bool) (jobId : String)
    (req : Req) : GRes :=
  let h := req.originHdr
  if corsOk e h = false then
    { outcome := Outcome.resp (corsRejectResp e h)
      workerCalled := false, workerParams := none, puts := [] }
  else
    match req.domainBody with
    | none =>
      { outcome := Outcome.resp ⟨400, jsonHeaders e h, RBody.errJson "Missing domain"⟩
        workerCalled := false, workerParams := none, puts := [] }
    | some d =>
      if d = "" then
        { outcome := Outcome.resp ⟨400, jsonHeaders e h, RBody.errJson "Missing domain"⟩
          workerCalled := false, workerParams := none, puts := [] }
      else
        match norm d with
        | Except.error m =>
          { outcome := Outcome.thrown m
            workerCalled := false, workerParams := none, puts := [] }
        | Except.ok o => handle e up hasBucket jobId req o h

/-! ### Object storage and the image retrieval endpoint -/

structure StoredObj where
  body : List Nat
  contentType : String

/-- Object storage as an association list; a fresh `put` shadows (R2
overwrite semantics). -/
abbrev Store : Type := List (String × StoredObj)

def putStore (st : Store) (k : String) (b : List Nat) (ct : String) : Store :=
  (k, ⟨b, ct⟩) :: st

def getStore (st : Store) (k : String) : Option StoredObj :=
  (st : List (String × StoredObj)).lookup k

/-- The `ctx.params.key` catch-all parameter of the images route: an array
of path segments, a bare string, or absent. -/
inductive KeyParam : Type where
  | arr : List String → KeyParam
  | str : String → KeyParam
  | undef : KeyParam

/-- `Array.isArray(raw) ? raw : raw ? [raw] : []`. -/
def keyParts : KeyParam → List String
  | KeyParam.arr ps => ps
  | KeyParam.str s => if s = "" then [] else [s]
  | KeyParam.undef => []

/-- `GET` of `images/[...key]/route.ts`: join the segments into a key,
400 on an empty key, 404 when the object is absent, else 200 with the
stored bytes, the stored content-type (defaulting to `image/webp` when
falsy) and a long-lived immutable cache directive. -/
def imagesGET (st : Store) (p : KeyParam) : HttpResponse :=
  let key := String.intercalate "/" (keyParts p)
  if key = "" then ⟨400, [], RBody.text "Bad Request"⟩
  else
    match getStore st key with
    | none => ⟨404, [], RBody.text "Not found"⟩
    | some obj =>
      ⟨200,
        [("content-type", if obj.contentType ≠ "" then obj.contentType else "image/webp"),
         ("cache-control", "public, max-age=31536000, immutable")],
        RBody.bytes obj.body⟩

/-! ### Generic association-list lemmas -/

theorem lookup_some_mem {β : Type} {l : List (String × β)} {k : String} {v : β}
    (h : List.lookup k l = some v) : (k, v) ∈ l := by
  induction l with
  | nil => simp [List.lookup] at h
  | cons p rest ih =>
    by_cases hk : (k == p.1) = true
    · simp only [List.lookup, hk] at h
      cases h
      have hk' : k = p.1 := by simpa using hk
      subst hk'
      simp
    · simp only [List.lookup, eq_false_of_ne_true hk] at h
      exact List.mem_cons_of_mem _ (ih h)

theorem lookup_append_some {β : Type} (l1 l2 : List (String × β)) (k : String) (v : β)
    (h : List.lookup k l1 = some v) : List.lookup k (l1 ++ l2) = some v := by
  induction l1 with
  | nil => simp [List.lookup] at h
  | cons p rest ih =>
    by_cases hk : (k == p.1) = true
    · simp only [List.lookup, hk] at h
      simpa [List.lookup, hk] using h
    · simp only [List.lookup, eq_false_of_ne_true hk] at h
      simpa [List.lookup, eq_false_of_ne_true hk] using ih h

theorem lookup_append_none {β : Type} (l1 l2 : List (String × β)) (k : String)
    (h : List.lookup k l1 = none) : List.lookup k (l1 ++ l2) = List.lookup k l2 := by
  induction l1 with
  | nil => simp
  | cons p rest ih =>
    by_cases hk : (k == p.1) = true
    · simp [List.lookup, hk] at h
    · simp only [List.lookup, eq_false_of_ne_true hk] at h
      simpa [List.lookup, eq_false_of_ne_true hk] using ih h

/-! ### Concrete fixtures used by witnesses and counterexamples -/

/-- A concrete stand-in for `Buffer.from(·, "base64")` (its byte values are
irrelevant to every property below). -/
def decode0 : String → List Nat := fun _ => []

def envA : Env :=
  { b64decode := decode0
    cfUrlSet := true
    cfTokenSet := true
    allowedOriginsRaw := "https://app.test, https://two.test"
    envWorkerMax := none
    envMaxSections := some "3"
    basePath := some "/ncp"
    absoluteImageUrls := none
    publicSiteOrigin := none
    envKeys := ["CF_WORKER_URL", "CF_WORKER_TOKEN", "ALLOWED_ORIGINS"] }

def upstreamA : Upstream :=
  { status := 200
    bodyText := "unused"
    jsonErrMsg := "Unexpected token"
    payload := some { sections := some [], meta := JVal.null } }

def reqBase : Req :=
  { originHdr := none
    query := []
    domainBody := none
    xfProto := none
    xfHost := none
    urlHost := "ncp-gen.webflow.io" }

/-! ### Claim theorems -/

/-- C8 (amended): for every non-empty key `K`, non-empty content-type `T`
and bytes `B`, a `put(K, B, T)` followed by an Image Retrieval Endpoint
request whose path segments join to `K` returns 200 with exactly `B`, the
stored content-type `T` and the long-lived immutable cache directive; and a
request for any non-empty key with no stored object returns 404.  (The
amendment excludes the empty key, which the endpoint rejects with 400
before consulting storage, and the empty content-type, which it replaces
with the `image/webp` default — see the counterexample.) -/
theorem imagesGET_contract (st : Store) (k : String) (b : List Nat) (ct : String)
    (parts : List String) (hk : k ≠ "") (hct : ct ≠ "")
    (hparts : String.intercalate "/" parts = k) :
    imagesGET (putStore st k b ct) (KeyParam.arr parts)
      = ⟨200, [("content-type", ct),
               ("cache-control", "public, max-age=31536000, immutable")], RBody.bytes b⟩
    ∧ (∀ (st2 : Store) (k2 : String) (parts2 : List String),
        k2 ≠ "" → String.intercalate "/" parts2 = k2 → getStore st2 k2 = none →
        imagesGET st2 (KeyParam.arr parts2) = ⟨404, [], RBody.text "Not found"⟩) := by
  constructor
  · unfold imagesGET
    simp only [keyParts, hparts]
    rw [if_neg hk]
    unfold getStore putStore
    simp only [List.lookup, beq_self_eq_true]
    simp [hct]
  · intro st2 k2 parts2 hk2 hparts2 habs
    unfold imagesGET
    simp only [keyParts, hparts2]
    rw [if_neg hk2, habs]

/-- Witness for C8: a concrete put/get round trip and a concrete 404. -/
theorem imagesGET_contract_witness :
    imagesGET (putStore [] "jobs/j/section_0.jpg" [7, 7] "image/jpeg")
        (KeyParam.arr ["jobs", "j", "section_0.jpg"])
      = ⟨200, [("content-type", "image/jpeg"),
               ("cache-control", "public, max-age=31536000, immutable")], RBody.bytes [7, 7]⟩
    ∧ imagesGET [] (KeyParam.arr ["jobs", "j", "missing.jpg"])
      = ⟨404, [], RBody.text "Not found"⟩ := by
  have h := imagesGET_contract [] "jobs/j/section_0.jpg" [7, 7] "image/jpeg"
    ["jobs", "j", "section_0.jpg"] (by decide) (by decide) (by decide)
  exact ⟨h.1, h.2 [] "jobs/j/missing.jpg" ["jobs", "j", "missing.jpg"]
    (by decide) (by decide) rfl⟩

/-- Counterexample for C8 as stated: with the empty content-type the
endpoint serves `image/webp`, not the stored content-type; and after a
`put` under the empty key, the request for that key is a 400, not the
promised 200. -/
theorem imagesGET_contract_cex :
    (imagesGET (putStore [] "k" [1] "") (KeyParam.arr ["k"])).headers.lookup "content-type"
      = some "image/webp"
    ∧ ("image/webp" : String) ≠ ""
    ∧ (imagesGET (putStore [] "" [1] "text/plain") (KeyParam.arr [])).status = 400 := by
  exact ⟨rfl, by decide, rfl⟩

/-- C10: a `GET /scrape` whose query has `ping=1` short-circuits to a 200
JSON diagnostic carrying the names of all environment variables, without
looking at `domain`, without calling the upstream worker and without
touching storage. -/
theorem pingBypass (e : Env) (up : Upstream) (hb : Bool) (jobId : String) (req : Req)
    (hping : lookupParam req.query "ping" = some "1") :
    scrapeGET e up hb jobId req =
      { outcome := Outcome.resp ⟨200, jsonHeaders e req.originHdr,
          RBody.pingDiag (e.basePath.getD "") e.cfUrlSet e.cfTokenSet e.envKeys⟩
        workerCalled := false, workerParams := none, puts := [] } := by
  unfold scrapeGET
  rw [if_pos hping]

/-- Witness for C10 at a concrete request with no `domain` at all. -/
theorem pingBypass_witness :
    scrapeGET envA upstreamA true "job-1" { reqBase with query := [("ping", "1")] } =
      { outcome := Outcome.resp ⟨200, jsonHeaders envA none,
          RBody.pingDiag (envA.basePath.getD "") envA.cfUrlSet envA.cfTokenSet envA.envKeys⟩
        workerCalled := false, workerParams := none, puts := [] } :=
  pingBypass envA upstreamA true "job-1" { reqBase with query := [("ping", "1")] } rfl

/-- C4 (amended): a missing (or empty, which `!q` also treats as missing)
`domain` yields 400; but a present, non-empty `domain` that `norm` rejects
(unparsable, or a literal-`http`-prefixed string with a non-http(s)
scheme) makes the exception escape `GET`/`POST` uncaught — the route
returns no 400 (nor any response of its own) in that case, because
`norm` is invoked outside `handle`'s `try`. -/
theorem invalidDomainOutcome (e : Env) (up : Upstream) (hb : Bool) (jobId : String) (req : Req)
    (hping : lookupParam req.query "ping" ≠ some "1") :
    (lookupParam req.query "domain" = none →
      (scrapeGET e up hb jobId req).outcome
        = Outcome.resp ⟨400, cors e req.originHdr, RBody.text "Missing domain"⟩)
    ∧ (∀ q m, lookupParam req.query "domain" = some q → q ≠ "" →
        norm q = Except.error m →
        (scrapeGET e up hb jobId req).outcome = Outcome.thrown m)
    ∧ (∀ d m, corsOk e req.originHdr = true → req.domainBody = some d → d ≠ "" →
        norm d = Except.error m →
        (scrapePOST e up hb jobId req).outcome = Outcome.thrown m) := by
  refine ⟨?_, ?_, ?_⟩
  · intro hd
    unfold scrapeGET
    rw [if_neg hping, hd]
  · intro q m hd hq hn
    unfold scrapeGET
    rw [if_neg hping, hd]
    simp only [if_neg hq, hn]
  · intro d m hcors hd hdne hn
    unfold scrapePOST
    rw [if_neg (by simp [hcors]), hd]
    simp only [if_neg hdne, hn]

/-- Witness for C4 (amended) at concrete requests. -/
theorem invalidDomainOutcome_witness :
    (scrapeGET envA upstreamA true "job-2" reqBase).outcome
      = Outcome.resp ⟨400, cors envA none, RBody.text "Missing domain"⟩
    ∧ (scrapeGET envA upstreamA true "job-2"
        { reqBase with query := [("domain", "httpx://e.com")] }).outcome
      = Outcome.thrown "bad protocol" := by
  refine ⟨(invalidDomainOutcome envA upstreamA true "job-2" reqBase (by decide)).1 rfl, ?_⟩
  exact (invalidDomainOutcome envA upstreamA true "job-2"
    { reqBase with query := [("domain", "httpx://e.com")] } (by decide)).2.1
    "httpx://e.com" "bad protocol" rfl (by decide) rfl

/-- Counterexample for C4 as stated: `domain=httpx://e.com` is present and
has a scheme that is neither `http` nor `https`, yet the route does not
respond 400 — the `norm` exception escapes `GET` entirely (no response at
all from the route's code). -/
theorem invalidDomainOutcome_cex :
    (scrapeGET envA upstreamA true "job-3"
        { reqBase with query := [("domain", "httpx://e.com")] }).outcome
      = Outcome.thrown "bad protocol" := by
  rfl

/-- Spec-side shape of a canonical origin: a scheme, `://`, a non-empty
host free of path/query/fragment delimiters, then at most a `:port`. -/
def OriginShaped (o : String) : Prop :=
  ∃ scheme host tail,
    (scheme = "http" ∨ scheme = "https") ∧
    o = scheme ++ "://" ++ host ++ tail ∧
    host ≠ "" ∧
    (∀ c ∈ host.data, c ≠ '/' ∧ c ≠ '?' ∧ c ≠ '#') ∧
    (tail = "" ∨ ∃ p : Nat, tail = ":" ++ toString p)

theorem mkHost_shape {scheme : String} {hc : List Char} {port : Option Nat}
    {path : List Char} {u : UrlM} (h : mkHost scheme hc port path = some u) :
    u.scheme = scheme ∧ u.host ≠ "" ∧ (∀ c ∈ u.host.data, badHostChar c = false) ∧
    u.port = canonPort scheme port := by
  unfold mkHost at h
  split at h
  next h1 => exact absurd h (by simp)
  next h1 =>
    split at h
    next h2 => exact absurd h (by simp)
    next h2 =>
      cases h
      refine ⟨rfl, ?_, ?_, rfl⟩
      · intro he
        apply h1
        simpa using congrArg String.data he
      · intro c hc'
        by_contra hbad
        exact h2 (List.any_eq_true.mpr ⟨c, hc', by simpa using hbad⟩)

theorem parseAuthority_shape {scheme : String} {hp path : List Char} {u : UrlM}
    (h : parseAuthority scheme hp path = some u) :
    u.scheme = scheme ∧ u.host ≠ "" ∧ ∀ c ∈ u.host.data, badHostChar c = false := by
  unfold parseAuthority at h
  split at h
  · obtain ⟨h1, h2, h3, _⟩ := mkHost_shape h
    exact ⟨h1, h2, h3⟩
  · split at h
    · split at h
      · obtain ⟨h1, h2, h3, _⟩ := mkHost_shape h
        exact ⟨h1, h2, h3⟩
      · obtain ⟨h1, h2, h3, _⟩ := mkHost_shape h
        exact ⟨h1, h2, h3⟩
    · exact absurd h (by simp)

theorem parseSpecial_shape {scheme : String} {rest : List Char} {u : UrlM}
    (h : parseSpecialAfterScheme scheme rest = some u) :
    u.scheme = scheme ∧ u.host ≠ "" ∧ ∀ c ∈ u.host.data, badHostChar c = false :=
  parseAuthority_shape h

theorem parseWithScheme_shape {schemeL : String} {rest : List Char} {u : UrlM}
    (h : parseWithScheme schemeL rest = some u)
    (hs : u.scheme = "http" ∨ u.scheme = "https") :
    u.host ≠ "" ∧ ∀ c ∈ u.host.data, badHostChar c = false := by
  unfold parseWithScheme at h
  split at h
  next hspec =>
    obtain ⟨_, h2, h3⟩ := parseSpecial_shape h
    exact ⟨h2, h3⟩
  next hspec =>
    cases h
    simp only [Bool.or_eq_true, decide_eq_true_eq, not_or] at hspec
    rcases hs with h' | h'
    · exact absurd h' hspec.1
    · exact absurd h' hspec.2

theorem parseURL_http_shape {s : String} {u : UrlM} (h : parseURL s = some u)
    (hs : u.scheme = "http" ∨ u.scheme = "https") :
    u.host ≠ "" ∧ ∀ c ∈ u.host.data, badHostChar c = false := by
  unfold parseURL at h
  split at h
  · exact absurd h (by simp)
  · exact parseWithScheme_shape h hs

/-- C5 (amended): `norm`'s prefixing is a literal `"http"` prefix test, not
scheme detection.  When it succeeds it returns `u.origin` of the parsed
URL, which is always scheme + host (+ optional port) with no path; when the
(conditionally prefixed) string fails to parse it throws, and when the
parsed scheme is not http(s) — which requires the input to have started
with the literal characters `http` — it throws `bad protocol`.  A
non-http(s)-scheme input that does not start with `http` (e.g.
`ftp://example.com`) is instead reinterpreted as an https URL whose host is
the scheme text — see the counterexample. -/
theorem normContract (s : String) :
    (∀ o, norm s = Except.ok o →
      ∃ u, parseURL (prefixed s) = some u ∧
        (u.scheme = "http" ∨ u.scheme = "https") ∧ o = urlOrigin u ∧ OriginShaped o)
    ∧ (∀ u, parseURL (prefixed s) = some u → u.scheme ≠ "http" → u.scheme ≠ "https" →
        norm s = Except.error "bad protocol")
    ∧ (parseURL (prefixed s) = none → norm s = Except.error "Invalid URL") := by
  refine ⟨?_, ?_, ?_⟩
  · intro o ho
    unfold norm at ho
    split at ho
    · exact absurd ho (by simp)
    next v hp =>
      split at ho
      next hsch =>
        cases ho
        have hs' : v.scheme = "http" ∨ v.scheme = "https" := by
          simpa using hsch
        obtain ⟨hh, hbad⟩ := parseURL_http_shape hp hs'
        refine ⟨v, hp, hs', rfl, v.scheme, v.host,
          (match v.port with
           | some p => ":" ++ toString p
           | none => ""), hs', rfl, hh, ?_, ?_⟩
        · intro c hcm
          have hb := hbad c hcm
          refine ⟨fun he => ?_, fun he => ?_, fun he => ?_⟩ <;>
            (subst he; simp [badHostChar] at hb)
        · rcases hvp : v.port with _ | p
          · exact Or.inl rfl
          · exact Or.inr ⟨p, rfl⟩
      next hsch => exact absurd ho (by simp)
  · intro u hp h1 h2
    unfold norm
    rw [hp]
    simp [h1, h2]
  · intro hp
    unfold norm
    rw [hp]

/-- Witness for C5 (amended) at `"example.com"` (bare domain). -/
theorem normContract_witness :
    ∃ u, parseURL (prefixed "example.com") = some u ∧
      (u.scheme = "http" ∨ u.scheme = "https") ∧
      "https://example.com" = urlOrigin u ∧ OriginShaped "https://example.com" :=
  (normContract "example.com").1 "https://example.com" rfl

/-- Counterexample for C5 as stated: `ftp://example.com` has a non-http(s)
scheme, yet `norm` does not fail — the literal-prefix test prepends
`https://`, yielding the (surprising) origin `https://ftp`. -/
theorem normContract_cex :
    norm "ftp://example.com" = Except.ok "https://ftp" := by
  rfl

theorem empty_not_mem_origins (e : Env) : ("" : String) ∉ originsOf e := by
  intro hm
  have := List.mem_filter.mp hm
  simpa using this.2

theorem corsOk_false_iff (e : Env) (h : Option String) :
    corsOk e h = false ↔ (∀ s, h = some s → s ∉ originsOf e) := by
  cases h with
  | none => simp [corsOk]
  | some s =>
    by_cases hm : s ∈ originsOf e
    · have hne : s ≠ "" := fun he => empty_not_mem_origins e (he ▸ hm)
      have hcot : corsOk e (some s) = true := by
        simp only [corsOk, Bool.and_eq_true, decide_eq_true_eq]
        exact ⟨hne, by simpa using hm⟩
      rw [hcot]
      simp only [Bool.true_eq_false, false_iff, not_forall]
      exact ⟨s, rfl, not_not_intro hm⟩
    · have hcof : corsOk e (some s) = false := by
        have hcont : (originsOf e).contains s = false := by simpa using hm
        simp only [corsOk, hcont, Bool.and_false]
      rw [hcof]
      constructor
      · intro _ t ht
        cases ht
        exact hm
      · intro _
        rfl

/-- Every response `handle` can produce carries the `cors(h)` header set
(behind the JSON content-type) and is never the POST CORS rejection. -/
theorem handle_resp (e : Env) (up : Upstream) (hb : Bool) (jobId : String)
    (req : Req) (origin : String) (h : Option String) :
    ∃ r : HttpResponse, (handle e up hb jobId req origin h).outcome = Outcome.resp r ∧
      r.headers = jsonHeaders e h ∧ r ≠ corsRejectResp e h := by
  unfold handle
  split
  · refine ⟨_, rfl, rfl, ?_⟩
    intro hcon
    have := congrArg HttpResponse.body hcon
    simp [corsRejectResp] at this
  · split
    · refine ⟨_, rfl, rfl, ?_⟩
      intro hcon
      have := congrArg HttpResponse.body hcon
      simp [corsRejectResp] at this
    · split
      · refine ⟨_, rfl, rfl, ?_⟩
        intro hcon
        have := congrArg HttpResponse.status hcon
        simp [corsRejectResp] at this
      · split
        · refine ⟨_, rfl, rfl, ?_⟩
          intro hcon
          have := congrArg HttpResponse.status hcon
          simp [corsRejectResp] at this
        · refine ⟨_, rfl, rfl, ?_⟩
          intro hcon
          have := congrArg HttpResponse.status hcon
          simp [corsRejectResp] at this

/-- C7: a POST is answered with the CORS rejection (403,
`access-control-allow-origin: null`, JSON error body) exactly when the
`Origin` header is missing or not an exact member of the configured
allow-list; a POST from a listed origin is never the rejection, and every
response it does produce echoes that origin back in
`access-control-allow-origin`. -/
theorem corsGate (e : Env) (up : Upstream) (hb : Bool) (jobId : String) (req : Req) :
    ((scrapePOST e up hb jobId req).outcome = Outcome.resp (corsRejectResp e req.originHdr)
       ↔ (∀ s, req.originHdr = some s → s ∉ originsOf e))
    ∧ (corsRejectResp e req.originHdr).status = 403
    ∧ (corsRejectResp e req.originHdr).body = RBody.errJson "Origin not allowed"
    ∧ ((∀ s, req.originHdr = some s → s ∉ originsOf e) →
        (corsRejectResp e req.originHdr).headers.lookup "access-control-allow-origin"
          = some "null")
    ∧ (∀ s, req.originHdr = some s → s ∈ originsOf e →
        (scrapePOST e up hb jobId req).outcome ≠ Outcome.resp (corsRejectResp e req.originHdr)
        ∧ ∀ r, (scrapePOST e up hb jobId req).outcome = Outcome.resp r →
            r.headers.lookup "access-control-allow-origin" = some s) := by
  have hnotrej : corsOk e req.originHdr = true →
      ∀ r, (scrapePOST e up hb jobId req).outcome = Outcome.resp r →
        r.headers = jsonHeaders e req.originHdr ∧ r ≠ corsRejectResp e req.originHdr := by
    intro hc r hr
    unfold scrapePOST at hr
    rw [if_neg (by simp [hc])] at hr
    split at hr
    · cases hr
      refine ⟨rfl, ?_⟩
      intro hcon
      have := congrArg HttpResponse.status hcon
      simp [corsRejectResp] at this
    · split at hr
      · cases hr
        refine ⟨rfl, ?_⟩
        intro hcon
        have := congrArg HttpResponse.status hcon
        simp [corsRejectResp] at this
      · split at hr
        · exact absurd hr (by simp)
        next o hn =>
          obtain ⟨r', hr', hh', hne'⟩ := handle_resp e up hb jobId req o req.originHdr
          rw [hr'] at hr
          cases hr
          exact ⟨hh', hne'⟩
  refine ⟨?_, rfl, rfl, ?_, ?_⟩
  · constructor
    · intro hrej
      by_cases hc : corsOk e req.originHdr = true
      · exact absurd ((hnotrej hc _ hrej).2 rfl) (fun hcon => hcon)
      · exact (corsOk_false_iff e req.originHdr).mp (by simpa using hc)
    · intro hall
      have hc : corsOk e req.originHdr = false := (corsOk_false_iff e req.originHdr).mpr hall
      unfold scrapePOST
      rw [if_pos hc]
  · intro hall
    have hc : corsOk e req.originHdr = false := (corsOk_false_iff e req.originHdr).mpr hall
    simp [corsRejectResp, jsonHeaders, cors, List.lookup, hc]
  · intro s hs hm
    have hne : s ≠ "" := fun he => empty_not_mem_origins e (he ▸ hm)
    have hc : corsOk e req.originHdr = true := by
      rw [hs]
      simp [corsOk, hne]
      simpa using hm
    constructor
    · intro hcon
      exact absurd ((hnotrej hc _ hcon).2 rfl) (fun hx => hx)
    · intro r hr
      have hh := (hnotrej hc r hr).1
      rw [hh, hs]
      simp [jsonHeaders, cors, List.lookup, hs ▸ hc]

/-- Witness for C7: a listed origin is admitted and echoed; a missing and
an unlisted origin are rejected with 403 and `null`. -/
theorem corsGate_witness :
    (scrapePOST envA upstreamA true "job-4"
        { reqBase with originHdr := some "https://evil.test", domainBody := some "example.com" }
      ).outcome
      = Outcome.resp (corsRejectResp envA (some "https://evil.test"))
    ∧ (corsRejectResp envA (some "https://evil.test")).status = 403
    ∧ ∀ r, (scrapePOST envA upstreamA true "job-5"
        { reqBase with originHdr := some "https://app.test", domainBody := some "example.com" }
      ).outcome = Outcome.resp r →
        r.headers.lookup "access-control-allow-origin" = some "https://app.test" := by
  have h1 := corsGate envA upstreamA true "job-4"
    { reqBase with originHdr := some "https://evil.test", domainBody := some "example.com" }
  have h2 := corsGate envA upstreamA true "job-5"
    { reqBase with originHdr := some "https://app.test", domainBody := some "example.com" }
  refine ⟨h1.1.mpr ?_, h1.2.1, (h2.2.2.2.2 "https://app.test" rfl (by decide)).2⟩
  intro s hs
  cases hs
  decide

/-! ### Metadata sanitization and per-section decode recovery -/

theorem cleanSectionMeta_keys {s : Section} {k : String} {v : JVal}
    (h : (k, v) ∈ cleanSectionMeta s) :
    k = "id" ∨ k = "role" ∨ k = "bbox" ∨ k = "confidence" ∨ k = "label" := by
  unfold cleanSectionMeta at h
  simp only [List.mem_append] at h
  rcases h with ((((h | h) | h) | h) | h)
  · split at h <;> simp_all
  · split at h <;> simp_all
  · split at h <;> simp_all
  · split at h <;> simp_all
  · split at h <;> simp_all

theorem tilesB64Extra_keys {c : PCtx} {s : Section} {imgs : List JVal} {k : String} {v : JVal}
    (h : (k, v) ∈ tilesB64Extra c s imgs) : k = "images_b64" ∧ c.includeB64 = true := by
  unfold tilesB64Extra at h
  split at h
  next hb =>
    split at h
    · simp_all
    · split at h <;> simp_all
  next hb => simp at h

theorem singleB64Extra_keys {c : PCtx} {s : Section} {k : String} {v : JVal}
    (h : (k, v) ∈ singleB64Extra c s) : k = "image_b64" ∧ c.includeB64 = true := by
  unfold singleB64Extra at h
  split at h
  next hb =>
    split at h
    · simp_all
    · split at h <;> simp_all
  next hb => simp at h

theorem bareB64Extra_keys {c : PCtx} {s : Section} {k : String} {v : JVal}
    (h : (k, v) ∈ bareB64Extra c s) :
    (k = "image_b64" ∨ k = "images_b64") ∧ c.includeB64 = true := by
  unfold bareB64Extra at h
  rcases List.mem_append.mp h with h1 | h1
  · split at h1
    next hb =>
      split at h1 <;> simp_all
    next hb => simp at h1
  · split at h1
    next hb =>
      split at h1 <;> simp_all
    next hb => simp at h1

theorem cleanSectionMeta_lookup_none (s : Section) (k : String)
    (hk : k ≠ "id" ∧ k ≠ "role" ∧ k ≠ "bbox" ∧ k ≠ "confidence" ∧ k ≠ "label") :
    List.lookup k (cleanSectionMeta s) = none := by
  rcases hl : List.lookup k (cleanSectionMeta s) with _ | v
  · rfl
  · rcases cleanSectionMeta_keys (lookup_some_mem hl) with h | h | h | h | h <;> simp_all

theorem bareB64Extra_lookup_none (c : PCtx) (s : Section) (k : String)
    (hk : k ≠ "image_b64" ∧ k ≠ "images_b64") :
    List.lookup k (bareB64Extra c s) = none := by
  rcases hl : List.lookup k (bareB64Extra c s) with _ | v
  · rfl
  · rcases (bareB64Extra_keys (lookup_some_mem hl)).1 with h | h <;> simp_all

theorem cleanSectionMeta_bbox {s : Section} {xs : List JVal}
    (h : jget s "bbox" = JVal.arr xs) :
    List.lookup "bbox" (cleanSectionMeta s) = some (JVal.arr (xs.take 4)) := by
  unfold cleanSectionMeta
  rw [h]
  have hA : List.lookup "bbox"
      (if truthy (jget s "id") then [("id", JVal.str (jsToString (jget s "id")))] else []) =
      none := by
    split <;> rfl
  have hB : List.lookup "bbox"
      (if truthy (jget s "role") then [("role", JVal.str (jsToString (jget s "role")))] else []) =
      none := by
    split <;> rfl
  apply lookup_append_some
  apply lookup_append_some
  rw [lookup_append_none _ _ _ (by rw [lookup_append_none _ _ _ hA]; exact hB)]
  rfl

theorem cleanSectionMeta_confidence {s : Section} {q : Int}
    (h : jget s "confidence" = JVal.num q) :
    List.lookup "confidence" (cleanSectionMeta s) = some (JVal.num q) := by
  unfold cleanSectionMeta
  rw [h]
  have hA : List.lookup "confidence"
      (if truthy (jget s "id") then [("id", JVal.str (jsToString (jget s "id")))] else []) =
      none := by
    split <;> rfl
  have hB : List.lookup "confidence"
      (if truthy (jget s "role") then [("role", JVal.str (jsToString (jget s "role")))] else []) =
      none := by
    split <;> rfl
  have hC : List.lookup "confidence"
      (match jget s "bbox" with
       | JVal.arr xs => [("bbox", JVal.arr (xs.take 4))]
       | _ => ([] : Section)) = none := by
    rcases jget s "bbox" <;> rfl
  apply lookup_append_some
  rw [lookup_append_none _ _ _ (by
    rw [lookup_append_none _ _ _ (by rw [lookup_append_none _ _ _ hA]; exact hB)]
    exact hC)]
  rfl

/-- C6: a response section contains only the whitelisted metadata fields
(`id`, `role`, `bbox`, `confidence`, `label`) plus the `image`/`images` URL
fields, with the base64 fields possible only under the explicit `b64=1`
opt-in; `bbox` is copied truncated to its first 4 entries (hence exactly 4
whenever upstream supplies at least 4) and `confidence` is copied only when
it is a number. -/
theorem metaSanitization (c : PCtx) (s : Section) (idx : Nat) :
    (∀ k v, (k, v) ∈ (processSection c s idx).1 →
      k ∈ (["id", "role", "bbox", "confidence", "label", "image", "images"] : List String)
      ∨ (c.includeB64 = true ∧ k ∈ (["image_b64", "images_b64"] : List String)))
    ∧ (∀ xs, jget s "bbox" = JVal.arr xs →
        List.lookup "bbox" (processSection c s idx).1 = some (JVal.arr (xs.take 4)))
    ∧ (∀ xs, jget s "bbox" = JVal.arr xs → 4 ≤ xs.length →
        ∃ ys, List.lookup "bbox" (processSection c s idx).1 = some (JVal.arr ys) ∧
          ys.length = 4)
    ∧ (∀ q, jget s "confidence" = JVal.num q →
        List.lookup "confidence" (cleanSectionMeta s) = some (JVal.num q)) := by
  have hkeys : ∀ k v, (k, v) ∈ (processSection c s idx).1 →
      k ∈ (["id", "role", "bbox", "confidence", "label", "image", "images"] : List String)
      ∨ (c.includeB64 = true ∧ k ∈ (["image_b64", "images_b64"] : List String)) := by
    intro k v h
    unfold processSection at h
    split at h
    · rcases List.mem_append.mp h with h1 | he
      · rcases List.mem_append.mp h1 with hm | hi
        · rcases cleanSectionMeta_keys hm with h' | h' | h' | h' | h' <;> simp [h']
        · left
          simp at hi
          simp [hi.1]
      · obtain ⟨hk, hb⟩ := tilesB64Extra_keys he
        exact Or.inr ⟨hb, by simp [hk]⟩
    · split at h
      · rcases List.mem_append.mp h with h1 | he
        · rcases List.mem_append.mp h1 with hm | hi
          · rcases cleanSectionMeta_keys hm with h' | h' | h' | h' | h' <;> simp [h']
          · left
            simp at hi
            simp [hi.1]
        · obtain ⟨hk, hb⟩ := singleB64Extra_keys he
          exact Or.inr ⟨hb, by simp [hk]⟩
      · rcases List.mem_append.mp h with hm | hx
        · rcases cleanSectionMeta_keys hm with h' | h' | h' | h' | h' <;> simp [h']
        · obtain ⟨hk, hb⟩ := bareB64Extra_keys hx
          refine Or.inr ⟨hb, ?_⟩
          rcases hk with h' | h' <;> simp [h']
  have hbbox : ∀ xs, jget s "bbox" = JVal.arr xs →
      List.lookup "bbox" (processSection c s idx).1 = some (JVal.arr (xs.take 4)) := by
    intro xs hx
    unfold processSection
    split
    · exact lookup_append_some _ _ _ _ (lookup_append_some _ _ _ _ (cleanSectionMeta_bbox hx))
    · split
      · exact lookup_append_some _ _ _ _
          (lookup_append_some _ _ _ _ (cleanSectionMeta_bbox hx))
      · exact lookup_append_some _ _ _ _ (cleanSectionMeta_bbox hx)
  refine ⟨hkeys, hbbox, ?_, ?_⟩
  · intro xs hx hlen
    exact ⟨xs.take 4, hbbox xs hx, by simp [hlen]⟩
  · intro q hq
    exact cleanSectionMeta_confidence hq

def pctx0 : PCtx :=
  { b64decode := decode0, basePath := "/ncp", absolute := false
    siteOrigin := "https://ncp-gen.webflow.io", jobId := "j", includeB64 := false }

def pctxB64 : PCtx :=
  { pctx0 with includeB64 := true }

def sectWhitelist : Section :=
  [("id", JVal.str "x"), ("evil", JVal.str "z"),
   ("bbox", JVal.arr [JVal.num 1, JVal.num 2, JVal.num 3, JVal.num 4, JVal.num 5])]

/-- Witness for C6 at a concrete section carrying an unexpected upstream
field: the copied `id` is whitelisted, `bbox` is truncated to 4 entries,
and the unexpected field cannot appear in the output. -/
theorem metaSanitization_witness :
    ("id" ∈ (["id", "role", "bbox", "confidence", "label", "image", "images"] : List String)
      ∨ (pctx0.includeB64 = true ∧ "id" ∈ (["image_b64", "images_b64"] : List String)))
    ∧ List.lookup "bbox" (processSection pctx0 sectWhitelist 0).1
        = some (JVal.arr [JVal.num 1, JVal.num 2, JVal.num 3, JVal.num 4]) := by
  have h := metaSanitization pctx0 sectWhitelist 0
  exact ⟨h.1 "id" (JVal.str "x") (lookup_some_mem (by rfl)),
    h.2.1 [JVal.num 1, JVal.num 2, JVal.num 3, JVal.num 4, JVal.num 5] rfl⟩

/-- The URLs the tile loop collects are exactly those of the decodable
tiles, in order, keyed by their original positions. -/
theorem tileLoop_urls (c : PCtx) (safeId : String) (imgs : List JVal) (t : Nat) :
    (tileLoop c safeId imgs t).1
      = (List.enumFrom t imgs).filterMap (fun p =>
          if (safeDataUrlToBytes c p.2).isSome
          then some (buildUrlC c (tileKey c safeId p.1)) else none) := by
  induction imgs generalizing t with
  | nil => rfl
  | cons img rest ih =>
    unfold tileLoop
    rcases hd : safeDataUrlToBytes c img with _ | bytes
    · simp [List.enumFrom_cons, List.filterMap_cons, hd, ih (t + 1)]
    · simp [List.enumFrom_cons, List.filterMap_cons, hd, ih (t + 1)]

theorem nonemptyArr_of_arr {v : JVal} {imgs : List JVal}
    (h : v = JVal.arr imgs) (hne : imgs ≠ []) : nonemptyArr v = some imgs := by
  subst h
  cases imgs with
  | nil => exact absurd rfl hne
  | cons x xs => rfl

/-- C2 (amended): per-section image decode failures are recovered locally.
A malformed tile is silently skipped — the output `images` list holds
exactly the URLs of the decodable tiles, in order.  A section with no tiled
images whose single `image` fails to decode yields no `image`/`images`
field and performs no storage write; when `b64=1` was not requested its
output is exactly the whitelisted metadata (under `b64=1` a worker-supplied
base64 field may additionally pass through — see the counterexample).  The
persister is total: every input section yields an output (no batch
abort). -/
theorem decodeFailureRecovery (c : PCtx) (s : Section) (idx : Nat) :
    (∀ imgs, jget s "images" = JVal.arr imgs → imgs ≠ [] →
      List.lookup "images" (processSection c s idx).1
        = some (JVal.arr (((List.enumFrom 0 imgs).filterMap (fun p =>
            if (safeDataUrlToBytes c p.2).isSome
            then some (buildUrlC c (tileKey c (safeIdOf s idx) p.1))
            else none)).map JVal.str)))
    ∧ (nonemptyArr (jget s "images") = none →
        safeDataUrlToBytes c (jget s "image") = none →
        List.lookup "image" (processSection c s idx).1 = none
        ∧ List.lookup "images" (processSection c s idx).1 = none
        ∧ (processSection c s idx).2 = []
        ∧ (c.includeB64 = false → (processSection c s idx).1 = cleanSectionMeta s))
    ∧ (∀ list : List Section, (persistPure c list).length = list.length) := by
  refine ⟨?_, ?_, ?_⟩
  · intro imgs harr hne
    unfold processSection
    rw [nonemptyArr_of_arr harr hne]
    apply lookup_append_some
    rw [lookup_append_none _ _ _
      (cleanSectionMeta_lookup_none s "images" (by decide))]
    rw [tileLoop_urls]
    rfl
  · intro hnone hbad
    unfold processSection
    rw [hnone, hbad]
    refine ⟨?_, ?_, rfl, ?_⟩
    · rw [lookup_append_none _ _ _ (cleanSectionMeta_lookup_none s "image" (by decide))]
      exact bareB64Extra_lookup_none c s "image" (by decide)
    · rw [lookup_append_none _ _ _ (cleanSectionMeta_lookup_none s "images" (by decide))]
      exact bareB64Extra_lookup_none c s "images" (by decide)
    · intro hb
      have hbare : bareB64Extra c s = [] := by
        unfold bareB64Extra
        rw [if_neg (by simp [hb]), if_neg (by simp [hb])]
        rfl
      rw [hbare, List.append_nil]
  · intro list
    simp [persistPure]

def sectTiles : Section :=
  [("images", JVal.arr [JVal.str "data:image/jpeg;base64,AAAA", JVal.str "nocomma"])]

def sectMalformed : Section :=
  [("image", JVal.num 7), ("role", JVal.str "hero")]

/-- Witness for C2: a tile list with one decodable and one malformed tile,
and a section whose single image is malformed. -/
theorem decodeFailureRecovery_witness :
    List.lookup "images" (processSection pctx0 sectTiles 0).1
      = some (JVal.arr (((List.enumFrom 0
          [JVal.str "data:image/jpeg;base64,AAAA", JVal.str "nocomma"]).filterMap (fun p =>
            if (safeDataUrlToBytes pctx0 p.2).isSome
            then some (buildUrlC pctx0 (tileKey pctx0 (safeIdOf sectTiles 0) p.1))
            else none)).map JVal.str))
    ∧ List.lookup "image" (processSection pctx0 sectMalformed 0).1 = none
    ∧ (processSection pctx0 sectMalformed 0).1 = cleanSectionMeta sectMalformed := by
  have h1 := (decodeFailureRecovery pctx0 sectTiles 0).1
    [JVal.str "data:image/jpeg;base64,AAAA", JVal.str "nocomma"] rfl (by simp)
  have h2 := (decodeFailureRecovery pctx0 sectMalformed 0).2.1 rfl rfl
  exact ⟨h1, h2.1, h2.2.2.2 rfl⟩

def sectB64Bypass : Section :=
  [("image", JVal.num 5), ("image_b64", JVal.str "QUJD")]

/-- Counterexample for C2 as stated: under the explicit `b64=1` opt-in, a
section whose single image is malformed but which carries a worker-supplied
`image_b64` string is emitted with that non-whitelisted field — not with
*only* the whitelisted metadata. -/
theorem decodeFailureRecovery_cex :
    (processSection pctxB64 sectB64Bypass 0).1 = [("image_b64", JVal.str "QUJD")]
    ∧ ("image_b64" : String) ∉ (["id", "role", "bbox", "confidence", "label"] : List String) := by
  exact ⟨rfl, by decide⟩

/-- C9: on every schedule, the pool keeps exactly `min(N, L)` runners (as
spawned), at most that many — in particular at most `N` — runs are in
flight at any instant, each issued index below the shared cursor is claimed
by at most one runner, and claimed indices never exceed the cursor. -/
theorem boundedConcurrency {R : Type} (f : Nat → R) (L N : Nat) (choices : List Nat) :
    (initPool R N L).workers.length = min N L
    ∧ (runPool f L N choices).workers.length = min N L
    ∧ inFlight (runPool f L N choices) ≤ min N L
    ∧ inFlight (runPool f L N choices) ≤ N
    ∧ (∀ (w w' j : Nat),
        (runPool f L N choices).workers[w]? = some (WStat.busy j) →
        (runPool f L N choices).workers[w']? = some (WStat.busy j) → w = w')
    ∧ (∀ (w j : Nat), (runPool f L N choices).workers[w]? = some (WStat.busy j) →
        j < (runPool f L N choices).cursor) := by
  obtain ⟨_, _, _, _, hbusylt, _, huniq⟩ := poolInv_run f L N choices
  have hwl := runPool_workers_length f L N choices
  have hif : inFlight (runPool f L N choices) ≤ min N L := by
    calc inFlight (runPool f L N choices)
        ≤ (runPool f L N choices).workers.length := List.length_filter_le _ _
      _ = min N L := hwl
  exact ⟨by simp [initPool], hwl, hif, le_trans hif (Nat.min_le_left _ _), huniq, hbusylt⟩

/-- Witness for C9 with two runners mid-flight, both slots claimed
distinctly. -/
theorem boundedConcurrency_witness :
    inFlight (runPool (fun i => i) 3 2 [0, 1]) ≤ 2 ∧ (0 : Nat) = 0 := by
  have h := boundedConcurrency (fun i => i) 3 2 [0, 1]
  exact ⟨h.2.2.2.1, h.2.2.2.2.1 0 0 0 (by decide) (by decide)⟩

/-- The function the pool runs in `handle`: the per-section worker over the
truncated section list. -/
def persistF (c : PCtx) (sections : List Section) (cap : Nat) :
    Nat → Section × List PutOp :=
  fun i => processSection c ((sections.take cap).getD i default) i

/-- C1: for every upstream section list, cap and concurrency `N ≥ 1`, on
every schedule after which the pool has resolved, the output buffer has
length `min(L, cap)` and its `i`-th slot holds exactly the processed form
of input section `i` — positional correspondence independent of completion
order. -/
theorem persisterPositional (c : PCtx) (sections : List Section) (cap N : Nat)
    (choices : List Nat) (hN : 1 ≤ N)
    (hdone : poolDone (runPool (persistF c sections cap)
      (sections.take cap).length N choices) = true) :
    (runPool (persistF c sections cap) (sections.take cap).length N choices).out.length
      = min sections.length cap
    ∧ ∀ i, i < min sections.length cap →
        (runPool (persistF c sections cap) (sections.take cap).length N choices).out[i]?
          = some (some (processSection c (sections.getD i default) i)) := by
  obtain ⟨hlen, hout⟩ := runPool_done_out (persistF c sections cap)
    ((sections.take cap).length) N choices hN hdone
  constructor
  · rw [hlen, List.length_take]
    omega
  · intro i hi
    have hi' : i < (sections.take cap).length := by
      rw [List.length_take]
      omega
    have h := hout i hi'
    rw [h]
    have hgetD : (sections.take cap).getD i default = sections.getD i default := by
      have ht : (sections.take cap)[i]? = sections[i]? := by
        rw [List.getElem?_take]
        rw [if_pos (by omega)]
      simp [List.getD, ht]
    show some (some (persistF c sections cap i)) = _
    unfold persistF
    rw [hgetD]

/-- Witness for C1: a full run of a one-runner pool over two concrete
sections, checked slot by slot. -/
theorem persisterPositional_witness :
    (runPool (persistF pctx0 [sectMalformed, sectWhitelist] 6)
        (([sectMalformed, sectWhitelist] : List Section).take 6).length 1
        [0, 0, 0, 0, 0]).out.length
      = min ([sectMalformed, sectWhitelist] : List Section).length 6
    ∧ (runPool (persistF pctx0 [sectMalformed, sectWhitelist] 6)
        (([sectMalformed, sectWhitelist] : List Section).take 6).length 1
        [0, 0, 0, 0, 0]).out[0]?
      = some (some (processSection pctx0
          (([sectMalformed, sectWhitelist] : List Section).getD 0 default) 0)) := by
  have h := persisterPositional pctx0 [sectMalformed, sectWhitelist] 6 1
    [0, 0, 0, 0, 0] (by decide) (by rfl)
  exact ⟨h.1, h.2 0 (by decide)⟩

theorem workerMaxOf_bounds (e : Env) (q : Params) {wm : Int}
    (h : workerMaxOf e q = some wm) : 1 ≤ wm ∧ wm ≤ 12 := by
  unfold workerMaxOf at h
  rcases hb : (if jsTruthy (jsNumber ((lookupParam q "max").getD ""))
      then jsNumber ((lookupParam q "max").getD "")
      else defaultWorkerMax e) with _ | x
  · rw [hb] at h
    exact absurd h (by simp [clampJ])
  · rw [hb] at h
    simp only [clampJ] at h
    rw [Option.some.injEq] at h
    omega

/-- C3 (amended): with a well-formed configured hard cap `m ≥ 1`, the
number of sections persisted is bounded by `min(m, workerMax)` — the
smaller of the hard cap and the clamped caller value/default, as the claim
says — but the `max` actually sent upstream is the caller's own (last)
`max` query value forwarded verbatim when present and non-empty, and the
clamped `workerMax` (not the min with the hard cap) otherwise. -/
theorem capPolicy (e : Env) (origin : String) (q : Params) (s : String) (m wm : Int)
    (hms : e.envMaxSections = some s) (hs : s ≠ "") (hn : jsNumber s = some m)
    (hm : 1 ≤ m) (hwm : workerMaxOf e q = some wm) :
    maxSectionsOf e q = some (min m wm)
    ∧ (∀ secs : List Section,
        (secs.take (jsToNat (maxSectionsOf e q))).length
          = min secs.length (min m wm).toNat)
    ∧ (∀ (req : Req) (pl : Payload), req.query = q →
        (truncatedSections e req pl).length
          = min (pl.sections.getD []).length (min m wm).toNat)
    ∧ lookupParam (workerParamsOf e origin q) "max"
        = match lastParam q "max" with
          | some v => if v ≠ "" then some v else some (jsNumStr (some wm))
          | none => some (jsNumStr (some wm)) := by
  obtain ⟨hwm1, hwm12⟩ := workerMaxOf_bounds e q hwm
  have hmax : maxSectionsOf e q = some (min m wm) := by
    unfold maxSectionsOf
    simp only [hms]
    rw [if_pos hs, hn, hwm]
    simp only [clampJ]
    rw [Option.some.injEq]
    omega
  refine ⟨hmax, ?_, ?_, ?_⟩
  · intro secs
    rw [hmax]
    simp only [jsToNat]
    rw [List.length_take]
    omega
  · intro req pl hq
    unfold truncatedSections
    rw [hq, hmax]
    simp only [jsToNat]
    rw [List.length_take]
    omega
  · rw [workerParams_max, hwm]

/-- Witness for C3 (amended) at the concrete configuration
`MAX_SECTIONS=3`, `WORKER_MAX` unset (default 6), no caller `max`. -/
theorem capPolicy_witness :
    maxSectionsOf envA [("domain", "example.com")] = some (min 3 6)
    ∧ (([] : List Section).take
        (jsToNat (maxSectionsOf envA [("domain", "example.com")]))).length
      = min ([] : List Section).length ((min 3 6 : Int)).toNat
    ∧ (truncatedSections envA { reqBase with query := [("domain", "example.com")] }
        { sections := some [], meta := JVal.null }).length
      = min ((some ([] : List Section)).getD []).length ((min 3 6 : Int)).toNat
    ∧ lookupParam (workerParamsOf envA "https://example.com"
        [("domain", "example.com")]) "max"
      = match lastParam [("domain", "example.com")] "max" with
        | some v => if v ≠ "" then some v else some (jsNumStr (some 6))
        | none => some (jsNumStr (some 6)) := by
  have h := capPolicy envA "https://example.com" [("domain", "example.com")]
    "3" 3 6 rfl (by decide) (by rfl) (by decide) (by rfl)
  exact ⟨h.1, h.2.1 [], h.2.2.1 { reqBase with query := [("domain", "example.com")] }
    { sections := some [], meta := JVal.null } rfl, h.2.2.2⟩

/-- Counterexample for C3 as stated: with hard cap 3 and default worker max
6 the effective cap is `min(6,3) = 3`, yet the worker request carries
`max=6`; and a caller-supplied `max=100` is forwarded verbatim upstream
(neither clamped into 1..12 nor bounded by the hard cap). -/
theorem capPolicy_cex :
    maxSectionsOf envA [("domain", "example.com")] = some 3
    ∧ lookupParam (workerParamsOf envA "https://example.com"
        [("domain", "example.com")]) "max" = some "6"
    ∧ ("6" : String) ≠ "3"
    ∧ lookupParam (workerParamsOf envA "https://example.com"
        [("domain", "example.com"), ("max", "100")]) "max" = some "100" := by
  exact ⟨rfl, rfl, by decide, rfl⟩

end NCP
